import Mathlib

/-!
# node-bot: the session workflow of `src/gemini.js`

A shallow embedding of the Telegram video-maker bot.  JavaScript strings are modelled as
lists of characters, the regular expressions of the photo handler as values of a small
regular-expression type run by a backtracking matcher, the file system as the lists of
existing directories and regular files, and every handler as a function on a `World`
(sessions, file system, trace of observable effects).
-/

namespace NodeBot

/-! ## Characters and strings -/

/-- Strings of JavaScript, as lists of characters. -/
abbrev Str := List Char

/-- Case folding used by a regular expression with the `i` flag, as a character code.
The patterns of `gemini.js` contain ASCII characters only; a pattern character and an input
character are equal under the folding of JavaScript exactly when their codes are equal after
mapping `a`..`z` to `A`..`Z` (JavaScript never folds a non-ASCII character onto an ASCII
one when the `u` flag is absent). -/
def canonicalize (c : Char) : Nat :=
  if 97 ≤ c.toNat ∧ c.toNat ≤ 122 then c.toNat - 32 else c.toNat

/-- Two characters are equal up to letter case. -/
def eqCI (c d : Char) : Bool := canonicalize c == canonicalize d

/-- The class `\s` of JavaScript, which is also the set of characters removed by
`String.prototype.trim`: white space and line terminators. -/
def isWhiteSpace (c : Char) : Bool :=
  let n := c.toNat
  n == 9 || n == 10 || n == 11 || n == 12 || n == 13 || n == 32 || n == 160 ||
  n == 5760 || (8192 ≤ n && n ≤ 8202) || n == 8232 || n == 8233 || n == 8239 ||
  n == 8287 || n == 12288 || n == 65279

/-- The class `[\s\S]`: every character. -/
def anyChar (_ : Char) : Bool := true

/-- The method `trim` of a string. -/
def jsTrim (s : Str) : Str :=
  ((s.dropWhile isWhiteSpace).reverse.dropWhile isWhiteSpace).reverse

/-- A string is blank when it consists of white space only. -/
def isBlank (s : Str) : Bool := s.all isWhiteSpace

/-- The string `s` starts with the word `w`, letter case ignored. -/
def startsCI : Str → Str → Bool
  | [], _ => true
  | _ :: _, [] => false
  | c :: w, x :: s => eqCI c x && startsCI w s

/-- The word `w` occurs somewhere in `s`, letter case ignored. -/
def occursCI (w : Str) : Str → Bool
  | [] => startsCI w []
  | x :: s => startsCI w (x :: s) || occursCI w s

/-! ## Regular expressions -/

/-- The fragment of regular expressions used by the photo handler. -/
inductive Re where
  /-- The empty expression. -/
  | eps : Re
  /-- A literal character, compared up to letter case (flag `i`). -/
  | chr : Char → Re
  /-- The quantifier `*` on a character class, greedy (`true`) or lazy (`false`, `*?`). -/
  | star : Bool → (Char → Bool) → Re
  /-- The assertion `$` (no `m` flag: end of input only). -/
  | eos : Re
  /-- Concatenation. -/
  | seq : Re → Re → Re
  /-- Alternation `a|b`, left alternative first. -/
  | alt : Re → Re → Re
  /-- Capturing group with its number. -/
  | grp : Nat → Re → Re

/-- Captured groups, most recent first. -/
abbrev Caps := List (Nat × Str)

/-- Greedy `cls*` followed by the continuation `k`: longest repetition first. -/
def starGreedy {α : Type} (cls : Char → Bool) (k : Str → Option α) : Str → Option α
  | [] => k []
  | c :: t =>
    if cls c then
      match starGreedy cls k t with
      | some r => some r
      | none => k (c :: t)
    else k (c :: t)

/-- Lazy `cls*?` followed by the continuation `k`: shortest repetition first. -/
def starLazy {α : Type} (cls : Char → Bool) (k : Str → Option α) : Str → Option α
  | [] => k []
  | c :: t =>
    match k (c :: t) with
    | some r => some r
    | none => if cls c then starLazy cls k t else none

/-- Backtracking matcher: match `r` at the start of `s`, then run the continuation on the
rest of the input and the captures. -/
def Re.run : Re → Str → Caps → (Str → Caps → Option Caps) → Option Caps
  | .eps, s, cs, k => k s cs
  | .chr c, s, cs, k =>
    match s with
    | [] => none
    | x :: t => if eqCI c x then k t cs else none
  | .star true cls, s, cs, k => starGreedy cls (fun t => k t cs) s
  | .star false cls, s, cs, k => starLazy cls (fun t => k t cs) s
  | .eos, s, cs, k =>
    match s with
    | [] => k [] cs
    | _ :: _ => none
  | .seq a b, s, cs, k => a.run s cs (fun t ds => b.run t ds k)
  | .alt a b, s, cs, k =>
    match a.run s cs k with
    | some r => some r
    | none => b.run s cs k
  | .grp i r, s, cs, k =>
    r.run s cs (fun t ds => k t ((i, s.take (s.length - t.length)) :: ds))

/-- The behaviour of `String.prototype.match` without the `g` flag: the match at the
leftmost start position at which the expression matches. -/
def Re.exec (r : Re) : Str → Option Caps
  | [] => r.run [] [] (fun _ cs => some cs)
  | c :: t =>
    match r.run (c :: t) [] (fun _ cs => some cs) with
    | some cs => some cs
    | none => Re.exec r t

/-- The text of group `i` of a match (`m[i]`). -/
def group (i : Nat) : Caps → Str
  | [] => []
  | (j, s) :: cs => if j = i then s else group i cs

/-- The expression matching the word `w` literally. -/
def Re.word : Str → Re
  | [] => .eps
  | c :: w => .seq (.chr c) (Re.word w)

/-- The sequence `label\s*:\s*`. -/
def Re.label (w : Str) (rest : Re) : Re :=
  .seq (Re.word w) (.seq (.star true isWhiteSpace) (.seq (.chr ':')
    (.seq (.star true isWhiteSpace) rest)))

def wTitle : Str := ['T', 'i', 't', 'l', 'e']
def wContent : Str := ['C', 'o', 'n', 't', 'e', 'n', 't']
def wHashtags : Str := ['H', 'a', 's', 'h', 't', 'a', 'g', 's']
def wDate : Str := ['D', 'a', 't', 'e']

/-- The expression `/Title\s*:\s*([\s\S]*?)\nContent/i`. -/
def titleRe : Re :=
  Re.label wTitle (.seq (.grp 1 (.star false anyChar)) (Re.word ('\n' :: wContent)))

/-- The expression `/Content\s*:\s*([\s\S]*?)\nHashtags/i`. -/
def contentRe : Re :=
  Re.label wContent (.seq (.grp 1 (.star false anyChar)) (Re.word ('\n' :: wHashtags)))

/-- The expression `/Hashtags\s*:\s*([\s\S]*?)(\nDate|$)/i`. -/
def hashtagsRe : Re :=
  Re.label wHashtags (.seq (.grp 1 (.star false anyChar))
    (.grp 2 (.alt (Re.word ('\n' :: wDate)) .eos)))

/-- The expression `/Date\s*:\s*([\s\S]*)/i`. -/
def dateRe : Re :=
  Re.label wDate (.grp 1 (.star true anyChar))

/-- The fields extracted from a caption. -/
structure Fields where
  title : Str
  content : Str
  hashtags : Str
  date : Str
  deriving DecidableEq, Repr

/-- The caption parsing of the photo handler (lines 601-620): `none` is the
"caption format incorrect" branch; `today` is the value of
`today.toLocaleDateString("en-GB", options).toUpperCase()`. -/
def parseCaption (today : Str) (caption : Str) : Option Fields :=
  match titleRe.exec caption, contentRe.exec caption, hashtagsRe.exec caption with
  | some tm, some cm, some hm =>
    some { title := jsTrim (group 1 tm)
           content := jsTrim (group 1 cm)
           hashtags := jsTrim (group 1 hm)
           date := match dateRe.exec caption with
                   | some dm => jsTrim (group 1 dm)
                   | none => today }
  | _, _, _ => none

/-- One labelled line of a caption: `label : text`. -/
def field (w : Str) (a : Str) : Str := w ++ ' ' :: ':' :: ' ' :: a

/-- The caption `Title : a\nContent : b\nHashtags : c`. -/
def caption3 (a b c : Str) : Str :=
  field wTitle a ++ '\n' :: (field wContent b ++ '\n' :: field wHashtags c)

/-- The caption `Title : a\nContent : b\nHashtags : c\nDate : d`. -/
def caption4 (a b c d : Str) : Str :=
  caption3 a b c ++ '\n' :: field wDate d

/-- The text contains one of the label words `Title`, `Content`, `Hashtags`, `Date`, in any
letter case. -/
def hasLabel (s : Str) : Bool :=
  occursCI wTitle s || occursCI wContent s || occursCI wHashtags s || occursCI wDate s

/-! ## Numbers in file names -/

/-- The decimal digits of `n`, most significant first (`fuel` bounds the number of digits). -/
def decimalFuel : Nat → Nat → Str
  | 0, _ => []
  | fuel + 1, n =>
    if n < 10 then [Char.ofNat (48 + n)]
    else decimalFuel fuel (n / 10) ++ [Char.ofNat (48 + n % 10)]

/-- The conversion `String(n)` of a natural number. -/
def decimal (n : Nat) : Str := decimalFuel (n + 1) n

/-- The call `s.padStart(2, "0")`. -/
def padStart2 (s : Str) : Str := List.replicate (2 - s.length) '0' ++ s

/-- The number written by a string of decimal digits. -/
def digitsValue (s : Str) : Nat := s.foldl (fun acc c => 10 * acc + (c.toNat - 48)) 0

/-! ## The file system -/

/-- A path, as the list of its components. -/
abbrev Path := List Str

/-- The state of the file system below the working directory: the existing directories and
the existing regular files. -/
structure FS where
  dirs : List Path
  files : List Path
  deriving DecidableEq, Repr

/-- The call `fs.existsSync(p)`. -/
def FS.existsSync (fs : FS) (p : Path) : Bool := fs.dirs.contains p || fs.files.contains p

/-- The names of the sub-directories of `d`, each listed once:
`fs.readdirSync(d).filter((f) => fs.statSync(path.join(d, f)).isDirectory())`.  The
directory `d` is taken to exist (the output root is created at start-up, line 19). -/
def FS.subdirs (fs : FS) (d : Path) : List Str :=
  (fs.dirs.filterMap (fun p => if p.dropLast = d then p.getLast? else none)).dedup

/-- The call `fs.mkdirSync(p, { recursive: true })`: `none` when it throws because a regular
file sits at `p` or at one of its ancestors; otherwise `p` and its missing ancestors are
created. -/
def FS.mkdirSync (fs : FS) (p : Path) : Option FS :=
  if p.inits.tail.any (fun q => fs.files.contains q) then none
  else some { fs with dirs := fs.dirs ++ p.inits.tail.filter (fun q => !fs.dirs.contains q) }

/-- The call `fs.unlinkSync(p)`: `none` when it throws because `p` is not a regular file. -/
def FS.unlinkSync (fs : FS) (p : Path) : Option FS :=
  if fs.files.contains p then some { fs with files := fs.files.filter (fun q => q != p) }
  else none

/-- The calls `fs.writeFileSync(p, _)` and `fs.appendFileSync(p, _)`, which create the file
when it is absent (contents are not modelled; the directory of `p` is the post directory or
the output root and the call is taken to succeed). -/
def FS.writeFileSync (fs : FS) (p : Path) : FS :=
  if fs.files.contains p then fs else { fs with files := fs.files ++ [p] }

/-- The constant `mainOutputDir`. -/
def mainOutputDir : Str := "output".toList

/-- The constant `mainLog`. -/
def mainLog : Path := [mainOutputDir, "bot_startup.log".toList]

/-- The function `getLogFile`. -/
def getLogFile (postDir : Path) : Path := postDir ++ ["activity.log".toList]

/-- A reading of the clock (`new Date()`), in local time. -/
structure Clock where
  /-- Result of `getFullYear()`. -/
  fullYear : Nat
  /-- Result of `getMonth()`, January being 0. -/
  month : Nat
  /-- Result of `getDate()`. -/
  date : Nat
  /-- Result of `getHours()`. -/
  hours : Nat
  /-- Result of `getMinutes()`. -/
  minutes : Nat
  deriving DecidableEq, Repr

/-- The function `getFormattedTime`, at the clock reading `now`. -/
def getFormattedTime (now : Clock) : Str :=
  padStart2 (decimal now.hours) ++ padStart2 (decimal now.minutes)

/-- The name of the date bucket computed by `createPostDirectory`. -/
def dateFolder (today : Clock) : Str :=
  decimal today.fullYear ++ '-' :: (padStart2 (decimal (today.month + 1)) ++
    '-' :: padStart2 (decimal today.date))

/-- The name of the post directory computed by `createPostDirectory`. -/
def postFolderName (index : Nat) (time : Str) : Str :=
  "post".toList ++ padStart2 (decimal index) ++ '_' :: time

/-- The function `createPostDirectory(index)`; `today` and `now` are the two clock readings
it takes.  The result is the file system it leaves and the path it returns, `none` when a
`mkdirSync` throws. -/
def createPostDirectory (fs : FS) (today now : Clock) (index : Nat) : FS × Option Path :=
  let datePath : Path := [mainOutputDir, dateFolder today]
  match (if fs.existsSync datePath then some fs else fs.mkdirSync datePath) with
  | none => (fs, none)
  | some fs1 =>
    let postDir : Path := datePath ++ [postFolderName index (getFormattedTime now)]
    match (if fs1.existsSync postDir then some fs1 else fs1.mkdirSync postDir) with
    | none => (fs1, none)
    | some fs2 => (fs2, some postDir)

/-- The UTF-16 code units of a character. -/
def utf16 (c : Char) : List Nat :=
  if c.toNat < 65536 then [c.toNat]
  else [55296 + (c.toNat - 65536) / 1024, 56320 + (c.toNat - 65536) % 1024]

/-- Lexicographic order on sequences of code units. -/
def unitsLe : List Nat → List Nat → Bool
  | [], _ => true
  | _ :: _, [] => false
  | a :: s, b :: t => a < b || (a == b && unitsLe s t)

/-- The order of `Array.prototype.sort` without a comparison function: strings compared by
their UTF-16 code units. -/
def strLe (a b : Str) : Prop := unitsLe (a.flatMap utf16) (b.flatMap utf16) = true

instance : DecidableRel strLe := fun a b => by unfold strLe; infer_instance

/-- The array `dateFolders` of the photo handler: the directories of the output root,
sorted and reversed. -/
def dateFolders (fs : FS) : List Str :=
  ((fs.subdirs [mainOutputDir]).insertionSort strLe).reverse

/-- The value of `postIndex` computed by the photo handler (lines 570-578). -/
def postIndex (fs : FS) : Nat :=
  match dateFolders fs with
  | [] => 1
  | latestDateFolder :: _ => (fs.subdirs [mainOutputDir, latestDateFolder]).length + 1

/-- The allocation of the photo handler (lines 560-580): `postIndex` is computed from the
directory listing and passed to `createPostDirectory`. -/
def allocate (fs : FS) (today now : Clock) : FS × Option Path :=
  createPostDirectory fs today now (postIndex fs)

/-- Two clock readings fall on the same calendar date. -/
def sameDay (a b : Clock) : Prop :=
  a.fullYear = b.fullYear ∧ a.month = b.month ∧ a.date = b.date

instance (a b : Clock) : Decidable (sameDay a b) := by unfold sameDay; infer_instance

/-- Successive allocations of the photo handler, each with its two clock readings (the one of
`createPostDirectory` and the one of `getFormattedTime`): the paths returned, in order. -/
def allocateAll : FS → List (Clock × Clock) → List (Option Path)
  | _, [] => []
  | fs, r :: rest => (allocate fs r.1 r.2).2 :: allocateAll (allocate fs r.1 r.2).1 rest

/-- The state of the output root once `k` post directories have been allocated in the bucket
`bucket`, the only one of the root: no regular file is in the way, the bucket exists when
`k` is positive, it has `k` sub-directories, and no post directory with a greater sequence
number exists. -/
structure Allocated (fs : FS) (bucket : Str) (k : Nat) : Prop where
  root : [mainOutputDir] ∉ fs.files
  bucketFile : [mainOutputDir, bucket] ∉ fs.files
  postFile : ∀ x, [mainOutputDir, bucket, x] ∉ fs.files
  only : ∀ x, [mainOutputDir, x] ∈ fs.dirs → x = bucket
  made : [mainOutputDir, bucket] ∈ fs.dirs ∨ k = 0
  count : (fs.subdirs [mainOutputDir, bucket]).length = k
  free : ∀ j t, k < j → [mainOutputDir, bucket, postFolderName j t] ∉ fs.dirs

/-! ## Sessions, effects and the world -/

/-- The values of the field `step` of a session. -/
inductive Step where
  /-- The menu is shown (`"menu_selection"`). -/
  | menu_selection
  /-- The audio track is being chosen (`"audio_selection"`). -/
  | audio_selection
  /-- A photo with a caption is awaited (`"waiting_photo"`). -/
  | waiting_photo
  deriving DecidableEq, Repr

/-- The record `lastPost` of a session: the pending post. -/
structure Post where
  title : Str
  content : Str
  hashtags : Str
  date : Str
  /-- The field `audio`, copied from the session (`undefined` is `none`). -/
  audio : Option Str
  imagePath : Path
  previewPath : Path
  postDir : Path
  htmlContent : Str
  deriving DecidableEq, Repr

/-- An entry of `userStates`. -/
structure Session where
  step : Step
  audio : Option Str
  lastPost : Option Post
  deriving DecidableEq, Repr

/-- Levels of the logging utility. -/
inductive Level where
  | info
  | error
  | warn
  | success
  deriving DecidableEq, Repr

/-- The steps made on a browser after its launch, in the order of `renderAndPreview`. -/
inductive PageStep where
  | newPage
  | setViewport
  | setContent
  | fontsReady
  | querySelector
  | screenshot
  | close
  deriving DecidableEq, Repr

/-- The observable effects of the handlers on their collaborators. -/
inductive Effect where
  /-- A line appended to a log file by the logging utility. -/
  | log (level : Level) (file : Path)
  /-- The call `bot.sendMessage(chatId, text)`. -/
  | sendMessage (chatId : Int) (text : String)
  /-- The call `bot.editMessageText(text, ...)`. -/
  | editMessageText (chatId : Int) (text : String)
  /-- The call `bot.answerCallbackQuery(id, text)`. -/
  | answerCallbackQuery (text : String)
  /-- The call `bot.sendPhoto(chatId, path, ...)`. -/
  | sendPhoto (chatId : Int) (file : Path)
  /-- The call `bot.sendVideo(chatId, path, ...)`. -/
  | sendVideo (chatId : Int) (file : Path)
  /-- The calls `bot.getFile` and `axios.get` that download the photo. -/
  | download
  /-- One call of `puppeteer.launch`, with the number of the attempt (from 1). -/
  | launch (attempt : Nat)
  /-- A wait of the given number of milliseconds. -/
  | wait (ms : Nat)
  /-- A step made on the browser or its page. -/
  | page (browser : Nat) (step : PageStep)
  /-- The execution of the `ffmpeg` command on the preview, the audio and the video path. -/
  | ffmpeg (image : Path) (audio : Str) (video : Path)
  deriving DecidableEq, Repr

/-- The state of the program and of its environment: the sessions, the file system and the
effects produced so far, oldest first. -/
structure World where
  userStates : Int → Option Session
  fs : FS
  trace : List Effect

/-- One effect is produced. -/
def World.emit (w : World) (e : Effect) : World := { w with trace := w.trace ++ [e] }

/-- The function `log.writeLog`: the line is appended to the log file. -/
def World.log (w : World) (file : Path) (level : Level) : World :=
  { w with fs := w.fs.writeFileSync file, trace := w.trace ++ [.log level file] }

/-- The assignment `userStates[chatId] = s`. -/
def World.setSession (w : World) (chatId : Int) (s : Session) : World :=
  { w with userStates := fun c => if c = chatId then some s else w.userStates c }

/-- The closure `updateStatus` of the handlers. -/
def World.updateStatus (w : World) (logFile : Path) (chatId : Int) (text : String) : World :=
  (w.log logFile .info).emit (.editMessageText chatId text)

/-- What the collaborators answer during one handler run.  Calls of the chat transport are
taken to succeed. -/
structure Env where
  /-- Clock reading of the photo handler (line 560), as the text returned by
  `toLocaleDateString("en-GB", options)`. -/
  localeDate : Str
  /-- Clock reading of `createPostDirectory` (line 49). -/
  today : Clock
  /-- Clock reading of `getFormattedTime` (line 42). -/
  now : Clock
  /-- Extension of the downloaded file, `none` when `getFile` or `axios.get` throws. -/
  download : Option Str
  /-- The document composed from `index.html`, `none` when reading the template throws. -/
  html : Option Str
  /-- Outcome of the launch attempt with the given index (from 0): a browser, or the error
  thrown. -/
  launch : Nat → Except String Nat
  /-- The first step on the browser that throws, if any. -/
  pageFailure : Option PageStep
  /-- The encoder process exits with status 0. -/
  ffmpegOk : Bool

/-! ## The pipelines -/

/-- What `launchBrowserWithRetry` produces: a browser, a thrown error, or `undefined` when
the loop does not run. -/
inductive Launched where
  | browser (b : Nat)
  | thrown (error : String)
  | undefined
  deriving DecidableEq, Repr

/-- The loop of `launchBrowserWithRetry`, at the value `i` of its counter; `fuel` is the
number of iterations left, `maxRetries - i`. -/
def launchLoop (launch : Nat → Except String Nat) (logFile : Path) (maxRetries : Nat) :
    Nat → Nat → World → World × Launched
  | 0, _, w => (w, .undefined)
  | fuel + 1, i, w =>
    let w1 := w.emit (.launch (i + 1))
    match launch i with
    | .ok b => (w1, .browser b)
    | .error e =>
      let w2 := w1.log logFile .warn
      if i = maxRetries - 1 then (w2, .thrown e)
      else launchLoop launch logFile maxRetries fuel (i + 1) (w2.emit (.wait 2000))

/-- The function `launchBrowserWithRetry(logFile, maxRetries)`. -/
def launchBrowserWithRetry (launch : Nat → Except String Nat) (logFile : Path)
    (maxRetries : Nat) (w : World) : World × Launched :=
  launchLoop launch logFile maxRetries maxRetries 0 w

/-- The default value of the parameter `maxRetries`. -/
def defaultMaxRetries : Nat := 3

/-- The steps of `renderAndPreview` on the browser, lines 403-410. -/
def pageSteps : List PageStep :=
  [.newPage, .setViewport, .setContent, .fontsReady, .querySelector, .screenshot, .close]

/-- The steps `steps` are made on browser `b` until one throws; the screenshot writes the
preview file.  The result is `true` when no step throws. -/
def runPage (failure : Option PageStep) (b : Nat) (previewPath : Path) :
    List PageStep → World → World × Bool
  | [], w => (w, true)
  | st :: rest, w =>
    let w1 := w.emit (.page b st)
    if failure = some st then (w1, false)
    else
      runPage failure b previewPath rest
        (if st = .screenshot then { w1 with fs := w1.fs.writeFileSync previewPath } else w1)

/-- The function `renderAndPreview`. -/
def renderAndPreview (env : Env) (w : World) (chatId : Int)
    (title content hashtags date : Str) (imagePath postDir : Path) : World :=
  let logFile := getLogFile postDir
  let fail := fun (v : World) =>
    (v.log logFile .error).emit (.sendMessage chatId "❌ Error rendering preview. Try again.")
  let w1 := w.emit (.sendMessage chatId "🎨 Rendering preview...")
  match env.html with
  | none => fail w1
  | some html =>
    let w2 : World := { w1 with fs := w1.fs.writeFileSync (postDir ++ ["temp.html".toList]) }
    let w3 := (w2.updateStatus logFile chatId "🎨 Taking screenshot...").log logFile .info
    match launchBrowserWithRetry env.launch logFile defaultMaxRetries w3 with
    | (w4, .thrown _) => fail w4
    | (w4, .undefined) => fail w4
    | (w4, .browser b) =>
      let previewPath := postDir ++ ["preview.png".toList]
      match runPage env.pageFailure b previewPath pageSteps w4 with
      | (w5, false) => fail w5
      | (w5, true) =>
        let w6 := ((w5.log logFile .success).updateStatus logFile chatId
          "📸 Sending preview...").log logFile .info
        match w6.userStates chatId with
        | none => fail w6
        | some s =>
          let post : Post :=
            { title := title, content := content, hashtags := hashtags, date := date,
              audio := s.audio, imagePath := imagePath, previewPath := previewPath,
              postDir := postDir, htmlContent := html }
          let w7 := w6.setSession chatId { s with lastPost := some post }
          (((w7.emit (.sendPhoto chatId previewPath)).emit
            (.sendMessage chatId "What would you like to do?")).log logFile .success)

/-- The function `generateVideo`. -/
def generateVideo (env : Env) (w : World) (chatId : Int) (postData : Post) : World :=
  let logFile := getLogFile postData.postDir
  let fail := fun (v : World) =>
    ((v.log logFile .error).log logFile .error).emit
      (.sendMessage chatId "❌ Error creating video. Try again.")
  let w1 := w.emit (.sendMessage chatId "🎬 Creating video...")
  let videoPath := postData.postDir ++ ["video.mp4".toList]
  let w2 := (w1.log logFile .info).log logFile .info
  match postData.audio with
  | none => fail w2
  | some audio =>
    if !w2.fs.existsSync [audio] then fail w2
    else if !w2.fs.existsSync postData.previewPath then fail w2
    else
      let w3 := (w2.log logFile .info).emit (.ffmpeg postData.previewPath audio videoPath)
      if !env.ffmpegOk then fail w3
      else
        let w4 : World := { w3 with fs := w3.fs.writeFileSync videoPath }
        let w5 := ((w4.log logFile .success).updateStatus logFile chatId
          "📤 Uploading video...").log logFile .info
        let w6 := (w5.emit (.sendVideo chatId videoPath)).log logFile .success
        let w7 : World :=
          { w6 with fs := w6.fs.writeFileSync (postData.postDir ++ ["metadata.json".toList]) }
        ((w7.log logFile .success).emit (.sendMessage chatId "🎉 What's next?")).log
          logFile .success

/-! ## The handlers -/

/-- The method `toUpperCase` on the text of a date of the locale `en-GB`, which is ASCII. -/
def toUpperCase (s : Str) : Str :=
  s.map (fun c => if 97 ≤ c.toNat ∧ c.toNat ≤ 122 then Char.ofNat (c.toNat - 32) else c)

/-- The text of the start menu. -/
def welcomeText : String := "👋 Welcome to Video Maker Bot!\n\nWhat would you like to do?"

/-- The handler `bot.on("message")`. -/
def onMessage (w : World) (chatId : Int) : World :=
  match w.userStates chatId with
  | some _ => w
  | none =>
    ((((w.log mainLog .info).setSession chatId
      { step := .menu_selection, audio := none, lastPost := none }).emit
      (.sendMessage chatId welcomeText)).log mainLog .success)

/-- The values of `query.data`. -/
inductive Callback where
  | create_new
  | view_history
  | help_menu
  | settings_menu
  | back_to_menu
  | audio_I
  | audio_II
  | confirm_generate
  | cancel_post
  | other (data : Str)
  deriving DecidableEq, Repr

/-- The lines added to the history for one date folder (lines 161-168): the text and the
count of posts after the folder. -/
def historyFolder (dateFolder : Str) (postFolders : List Str) (text : Str) (postCount : Nat) :
    Str × Nat :=
  match postFolders with
  | [] => (text, postCount)
  | _ :: _ =>
    (postFolders.take 5).foldl
      (fun (acc : Str × Nat) postFolder =>
        if acc.2 ≥ 10 then acc
        else (acc.1 ++ "  • ".toList ++ postFolder ++ ['\n'], acc.2 + 1))
      (text ++ "📅 **".toList ++ dateFolder ++ "**\n".toList, postCount)

/-- The text of the history (lines 150-170). -/
def historyText (fs : FS) : Str :=
  ((dateFolders fs).foldl
    (fun (acc : Str × Nat) dateFolder =>
      if acc.2 ≥ 10 then acc
      else historyFolder dateFolder
        (((fs.subdirs [mainOutputDir, dateFolder]).insertionSort strLe).reverse) acc.1 acc.2)
    ("📚 **Your Recent Posts:**\n\n".toList, 0)).1

/-- The text of the help menu. -/
def helpText : String :=
  "📖 **How to use this bot:**\n\n1️⃣ **Create New Post**\n   • Select audio track\n   • Send photo with caption\n\n2️⃣ **Caption Format**\n   Title : Your title\n   Content : Your content\n   Hashtags : #tag1 #tag2\n   (Optional) Date : DD MMM YYYY\n\n3️⃣ **Review & Generate**\n   • Preview your post\n   • Approve to generate video\n   • Cancel to start over\n\nFeatures:\n✨ High-quality rendering\n🎬 8-second videos\n📚 View history"

/-- The text of the settings menu. -/
def settingsText : String :=
  "⚙️ **Bot Settings**\n\n🎬 Video Duration: 8 seconds\n🎵 Audio Tracks: 2 available\n📸 Image Quality: High (2560x2560)\n🎥 Video Quality: 5000kbps\n\nComing Soon:\n• Custom duration\n• More audio tracks\n• Quality presets"

/-- The end of the text shown once an audio track is selected. -/
def audioPrompt : String :=
  "\n\n📝 Now send me a photo with a caption.\n\nCaption format:\nTitle : Your Title\nContent : Your Content\nHashtags : #hashtag1 #hashtag2\n(Optional) Date : DD MMM YYYY\n\n💡 Want to change audio? Select a different one above."

/-- The handler `bot.on("callback_query")`. -/
def onCallback (env : Env) (w : World) (chatId : Int) (data : Callback) : World :=
  let w0 := w.log mainLog .info
  match data with
  | .create_new =>
    ((((w0.setSession chatId { step := .audio_selection, audio := none, lastPost := none }).log
      mainLog .info).emit (.answerCallbackQuery "📸 Creating new post")).emit
      (.editMessageText chatId
        "🎵 Select an audio track for your video:\n\n🎵 Audio I - Original\n🎶 Audio II - Alternative"))
  | .view_history =>
    let w1 := (w0.log mainLog .info).emit (.answerCallbackQuery "📚 Loading history")
    match dateFolders w1.fs with
    | [] => w1.emit (.editMessageText chatId
        "📚 No history found. Create a new post to get started!")
    | _ :: _ => w1.emit (.editMessageText chatId (String.mk (historyText w1.fs)))
  | .help_menu =>
    (((w0.log mainLog .info).emit (.answerCallbackQuery "❓ Help")).emit
      (.editMessageText chatId helpText))
  | .settings_menu =>
    (((w0.log mainLog .info).emit (.answerCallbackQuery "⚙️ Settings")).emit
      (.editMessageText chatId settingsText))
  | .back_to_menu =>
    ((((w0.log mainLog .info).emit (.answerCallbackQuery "📋 Back to menu")).setSession chatId
      { step := .menu_selection, audio := none, lastPost := none }).emit
      (.editMessageText chatId welcomeText))
  | .audio_I =>
    ((((w0.setSession chatId
      { step := .waiting_photo, audio := some "audioI.mp3".toList, lastPost := none }).log
      mainLog .success).emit (.answerCallbackQuery "✅ Selected: Audio I")).emit
      (.editMessageText chatId ("✅ Audio selected: 🎵 Audio I" ++ audioPrompt)))
  | .audio_II =>
    ((((w0.setSession chatId
      { step := .waiting_photo, audio := some "audioII.mp3".toList, lastPost := none }).log
      mainLog .success).emit (.answerCallbackQuery "✅ Selected: Audio II")).emit
      (.editMessageText chatId ("✅ Audio selected: 🎶 Audio II" ++ audioPrompt)))
  | .confirm_generate =>
    match (w0.userStates chatId).bind (fun s => s.lastPost) with
    | none => w0.emit (.answerCallbackQuery "❌ Error: Post data not found")
    | some lastPost =>
      generateVideo env (w0.emit (.answerCallbackQuery "🎬 Generating video...")) chatId lastPost
  | .cancel_post =>
    let w1 :=
      match (w0.userStates chatId).bind (fun s => s.lastPost) with
      | none => w0
      | some lastPost =>
        let logFile := getLogFile lastPost.postDir
        if w0.fs.existsSync lastPost.previewPath then
          match w0.fs.unlinkSync lastPost.previewPath with
          | some fs1 => ({ w0 with fs := fs1 } : World).log logFile .success
          | none => w0.log logFile .error
        else w0
    (((w1.setSession chatId { step := .menu_selection, audio := none, lastPost := none }).emit
      (.answerCallbackQuery "❌ Post cancelled")).emit
      (.editMessageText chatId "👋 Post cancelled. What would you like to do?"))
  | .other _ => w0

/-- The text sent when the caption does not have the three mandatory labels. -/
def formatErrorText : String :=
  "❌ Caption format incorrect! Use:\n\nTitle : ...\nContent : ...\nHashtags : ...\n(Optional) Date : ..."

/-- The text sent when the photo has no caption. -/
def noCaptionText : String := "❌ Please send a caption with Title, Content, Hashtags."

/-- The text sent by the `catch` of the photo handler. -/
def processingErrorText : String := "❌ Error processing your request. Try again."

/-- The handler `bot.on("photo")`, for a message of chat `chatId` with the given caption
(`none` when the photo has no caption). -/
def onPhoto (env : Env) (w : World) (chatId : Int) (caption : Option Str) : World :=
  let wS := match w.userStates chatId with
    | some _ => w
    | none => w.setSession chatId { step := .waiting_photo, audio := none, lastPost := none }
  match wS.userStates chatId with
  | none => wS
  | some session =>
    if session.step ≠ .waiting_photo then wS
    else
      let w0 := wS.log mainLog .info
      match session.audio with
      | none =>
        (w0.log mainLog .warn).emit
          (.sendMessage chatId "⚠️ Please select an audio track first using /start")
      | some _ =>
        let fail := fun (v : World) =>
          (v.log mainLog .error).emit (.sendMessage chatId processingErrorText)
        match allocate w0.fs env.today env.now with
        | (fs1, none) => fail { w0 with fs := fs1 }
        | (fs1, some postDir) =>
          let logFile := getLogFile postDir
          let w1 := (({ w0 with fs := fs1 } : World).log logFile .success).emit
            (.sendMessage chatId "⏳ Processing...")
          match caption with
          | none => (w1.log logFile .warn).updateStatus logFile chatId noCaptionText
          | some [] => (w1.log logFile .warn).updateStatus logFile chatId noCaptionText
          | some (c :: cs) =>
            let w2 := w1.log logFile .info
            match parseCaption (toUpperCase env.localeDate) (c :: cs) with
            | none => (w2.log logFile .warn).updateStatus logFile chatId formatErrorText
            | some f =>
              let w3 := (((w2.log logFile .success).log logFile .info).updateStatus logFile
                chatId "📥 Downloading image...").emit .download
              match env.download with
              | none => fail w3
              | some ext =>
                let imagePath := postDir ++ ["original_image.".toList ++ ext]
                let w4 := ({ w3 with fs := w3.fs.writeFileSync imagePath } : World).log
                  logFile .success
                renderAndPreview env w4 chatId f.title f.content f.hashtags f.date
                  imagePath postDir

/-! ## Sample inputs -/

/-- A run of the collaborators in which every step succeeds, on 6 November 2026 at 09:05. -/
def sampleEnv : Env :=
  { localeDate := "06 Nov 2026".toList
    today := { fullYear := 2026, month := 10, date := 6, hours := 9, minutes := 5 }
    now := { fullYear := 2026, month := 10, date := 6, hours := 9, minutes := 5 }
    download := some "jpg".toList
    html := some []
    launch := fun _ => .ok 7
    pageFailure := none
    ffmpegOk := true }

/-- The world right after start-up, with the two audio files in the working directory and
no session. -/
def startWorld : World :=
  { userStates := fun _ => none
    fs := { dirs := [[mainOutputDir]]
            files := [mainLog, ["audioI.mp3".toList], ["audioII.mp3".toList]] }
    trace := [] }

/-- The world in which user 1 has the menu on screen. -/
def menuWorld : World :=
  startWorld.setSession 1 { step := .menu_selection, audio := none, lastPost := none }

/-- The world in which user 1 has selected the first audio track. -/
def waitingWorld : World :=
  startWorld.setSession 1
    { step := .waiting_photo, audio := some "audioI.mp3".toList, lastPost := none }

/-- The caption of the end-to-end scenario. -/
def sunsetCaption : Str :=
  "Title : Sunset\nContent : Nice view\nHashtags : #sunset #vibes".toList

/-- The pending post built from the sunset caption. -/
def sunsetPost : Post :=
  { title := "Sunset".toList
    content := "Nice view".toList
    hashtags := "#sunset #vibes".toList
    date := "06 NOV 2026".toList
    audio := some "audioI.mp3".toList
    imagePath := [mainOutputDir, "2026-11-06".toList, "post01_0905".toList,
      "original_image.jpg".toList]
    previewPath := [mainOutputDir, "2026-11-06".toList, "post01_0905".toList,
      "preview.png".toList]
    postDir := [mainOutputDir, "2026-11-06".toList, "post01_0905".toList]
    htmlContent := [] }

/-- A caption without the `Hashtags` line. -/
def shortCaption : Str := "Title : Sunset\nContent : Nice view".toList

/-- An output root that holds the bucket of 5 November 2026 with two posts, and no bucket
for 6 November. -/
def dayBeforeFS : FS :=
  { dirs := [[mainOutputDir], [mainOutputDir, "2026-11-05".toList],
      [mainOutputDir, "2026-11-05".toList, "post01_1000".toList],
      [mainOutputDir, "2026-11-05".toList, "post02_1100".toList]]
    files := [mainLog] }

/-- A caption with its three mandatory lines and no `Date` line, whose content holds the word
`Update` followed by a colon. -/
def updateCaption : Str := "Title : News\nContent : Update: done\nHashtags : #x".toList

/-- The world in which user 1 has received the preview of the sunset post. -/
def previewWorld : World := onPhoto sampleEnv waitingWorld 1 (some sunsetCaption)

/-- No match of the word `w` starts inside `p` when `p` is followed by `r`. -/
def cleanB (w : Str) : Str → Str → Bool
  | [], _ => true
  | c :: p, r => !startsCI w (c :: p ++ r) && cleanB w p r

/-! ## Facts about the matcher -/

theorem eqCI_self (c : Char) : eqCI c c = true := by
  simp [eqCI]

theorem startsCI_nil (s : Str) : startsCI [] s = true := by
  cases s <;> rfl

theorem startsCI_self_append (w r : Str) : startsCI w (w ++ r) = true := by
  induction w with
  | nil => exact startsCI_nil _
  | cons c w ih => simp [startsCI, eqCI_self, ih]

/-- A match of `w` that starts in `t` and is followed by the character `x` either lies
inside `t` or uses `x` for one of the characters of `w`. -/
theorem startsCI_append_cons {w : Str} : ∀ {t : Str} {x : Char} {r : Str},
    startsCI w (t ++ x :: r) = true → startsCI w t = true ∨ ∃ c ∈ w, eqCI c x = true := by
  induction w with
  | nil => intro t x r _; exact Or.inl (startsCI_nil _)
  | cons c w ih =>
    intro t x r h
    cases t with
    | nil =>
      simp only [List.nil_append, startsCI, Bool.and_eq_true] at h
      exact Or.inr ⟨c, List.mem_cons_self _ _, h.1⟩
    | cons y t =>
      simp only [List.cons_append, startsCI, Bool.and_eq_true] at h
      rcases ih h.2 with h1 | ⟨d, hd, hx⟩
      · left; simp [startsCI, h.1, h1]
      · exact Or.inr ⟨d, List.mem_cons_of_mem _ hd, hx⟩

theorem occursCI_append_left (w p t : Str) (h : startsCI w t = true) :
    occursCI w (p ++ t) = true := by
  induction p with
  | nil => cases t <;> simp_all [occursCI]
  | cons c p ih => simp [occursCI, ih]

theorem startsCI_of_suffix {w a t : Str} (h : occursCI w a = false) (ht : t <:+ a) :
    startsCI w t = false := by
  obtain ⟨p, rfl⟩ := ht
  cases hs : startsCI w t with
  | false => rfl
  | true => rw [occursCI_append_left w p t hs] at h; cases h

theorem run_word (w : Str) : ∀ (s : Str) (cs : Caps) (k : Str → Caps → Option Caps),
    (Re.word w).run s cs k = if startsCI w s then k (s.drop w.length) cs else none := by
  induction w with
  | nil => intro s cs k; simp [Re.word, Re.run, startsCI_nil]
  | cons c w ih =>
    intro s cs k
    cases s with
    | nil => simp [Re.word, Re.run, startsCI]
    | cons x s =>
      simp only [Re.word, Re.run, ih, startsCI, List.length_cons, List.drop_succ_cons]
      cases eqCI c x <;> simp

theorem starGreedy_stop {α : Type} (cls : Char → Bool) (k : Str → Option α) (rest : Str)
    (h : ∀ c t, rest = c :: t → cls c = false) : starGreedy cls k rest = k rest := by
  cases rest with
  | nil => rfl
  | cons c t => simp [starGreedy, h c t rfl]

theorem starGreedy_skip {α : Type} (cls : Char → Bool) (k : Str → Option α) (rest : Str)
    (r : α) (h : ∀ c t, rest = c :: t → cls c = false) (hk : k rest = some r) :
    ∀ ws : Str, (∀ c ∈ ws, cls c = true) → starGreedy cls k (ws ++ rest) = some r := by
  intro ws
  induction ws with
  | nil => intro _; rw [List.nil_append, starGreedy_stop cls k rest h, hk]
  | cons c ws ih =>
    intro hws
    have h1 := ih (fun d hd => hws d (List.mem_cons_of_mem _ hd))
    simp [starGreedy, hws c (List.mem_cons_self _ _), h1]

theorem starGreedy_all {α : Type} (k : Str → Option α) (r : α) (hk : k [] = some r) :
    ∀ s : Str, starGreedy anyChar k s = some r := by
  intro s
  induction s with
  | nil => simpa [starGreedy] using hk
  | cons c s ih => simp [starGreedy, anyChar, ih]

theorem starLazy_first {α : Type} (k : Str → Option α) (rest : Str) (r : α)
    (hk : k rest = some r) :
    ∀ p : Str, (∀ t, t ≠ [] → t <:+ p → k (t ++ rest) = none) →
      starLazy anyChar k (p ++ rest) = some r := by
  intro p
  induction p with
  | nil =>
    intro _
    cases rest with
    | nil => simpa [starLazy] using hk
    | cons c t => simp [starLazy, hk]
  | cons c p ih =>
    intro hp
    have h0 := hp (c :: p) (by simp) List.suffix_rfl
    have h1 := ih (fun t ht hs => hp t ht (hs.trans (List.suffix_cons c p)))
    simp only [List.cons_append] at h0 ⊢
    simp [starLazy, h0, anyChar, h1]

theorem cleanB_append (w : Str) (p q r : Str) :
    cleanB w (p ++ q) r = (cleanB w p (q ++ r) && cleanB w q r) := by
  induction p with
  | nil => simp [cleanB]
  | cons c p ih => simp [cleanB, ih, Bool.and_assoc]

theorem cleanB_append_of {w p q r : Str} (h1 : cleanB w p (q ++ r) = true)
    (h2 : cleanB w q r = true) : cleanB w (p ++ q) r = true := by
  rw [cleanB_append, h1, h2]; rfl

theorem cleanB_of_head (h : Char) (w : Str) (r : Str) :
    ∀ f : Str, (∀ c ∈ f, eqCI h c = false) → cleanB (h :: w) f r = true := by
  intro f
  induction f with
  | nil => intro _; rfl
  | cons c f ih =>
    intro hf
    simp [cleanB, startsCI, hf c (List.mem_cons_self _ _),
      ih (fun d hd => hf d (List.mem_cons_of_mem _ hd))]

theorem cleanB_of_free (w : Str) (x : Char) (r : Str) (hx : ∀ c ∈ w, eqCI c x = false) :
    ∀ a : Str, occursCI w a = false → cleanB w a (x :: r) = true := by
  intro a
  induction a with
  | nil => intro _; rfl
  | cons c a ih =>
    intro h
    simp only [occursCI, Bool.or_eq_false_iff] at h
    have h1 : startsCI w (c :: a ++ x :: r) = false := by
      cases hs : startsCI w (c :: a ++ x :: r) with
      | false => rfl
      | true =>
        rcases startsCI_append_cons hs with h2 | ⟨d, hd, h2⟩
        · rw [h.1] at h2; cases h2
        · rw [hx d hd] at h2; cases h2
    simp only [List.cons_append] at h1
    simp [cleanB, h1, ih h.2]

theorem cleanB_of_free_end (w : Str) :
    ∀ a : Str, occursCI w a = false → cleanB w a [] = true := by
  intro a
  induction a with
  | nil => intro _; rfl
  | cons c a ih =>
    intro h
    simp only [occursCI, Bool.or_eq_false_iff] at h
    simp [cleanB, h.1, ih h.2]

theorem run_label_none (w : Str) (rest : Re) (s : Str) (cs : Caps)
    (k : Str → Caps → Option Caps) (h : startsCI w s = false) :
    (Re.label w rest).run s cs k = none := by
  simp [Re.label, Re.run, run_word, h]

theorem exec_label_skip (w : Str) (rest : Re) (r : Str) :
    ∀ p : Str, cleanB w p r = true →
      (Re.label w rest).exec (p ++ r) = (Re.label w rest).exec r := by
  intro p
  induction p with
  | nil => intro _; rfl
  | cons c p ih =>
    intro h
    simp only [cleanB, Bool.and_eq_true, Bool.not_eq_true'] at h
    simp only [List.cons_append] at h ⊢
    simp [Re.exec, run_label_none w rest _ _ _ h.1, ih h.2]

theorem exec_label_none (w : Str) (rest : Re) (hw : w ≠ []) (p : Str)
    (h : cleanB w p [] = true) : (Re.label w rest).exec p = none := by
  have h1 := exec_label_skip w rest [] p h
  rw [List.append_nil] at h1
  rw [h1]
  cases w with
  | nil => exact absurd rfl hw
  | cons c w => exact run_label_none _ _ _ _ _ rfl

theorem run_seq (a b : Re) (s : Str) (cs : Caps) (k : Str → Caps → Option Caps) :
    (Re.seq a b).run s cs k = a.run s cs (fun t ds => b.run t ds k) := by
  simp [Re.run]

theorem run_star_greedy (cls : Char → Bool) (s : Str) (cs : Caps)
    (k : Str → Caps → Option Caps) :
    (Re.star true cls).run s cs k = starGreedy cls (fun t => k t cs) s := by
  simp [Re.run]

theorem run_star_lazy (cls : Char → Bool) (s : Str) (cs : Caps)
    (k : Str → Caps → Option Caps) :
    (Re.star false cls).run s cs k = starLazy cls (fun t => k t cs) s := by
  simp [Re.run]

theorem run_grp (i : Nat) (r : Re) (s : Str) (cs : Caps) (k : Str → Caps → Option Caps) :
    (Re.grp i r).run s cs k =
      r.run s cs (fun t ds => k t ((i, s.take (s.length - t.length)) :: ds)) := by
  simp [Re.run]

theorem run_chr_cons (c x : Char) (s : Str) (cs : Caps) (k : Str → Caps → Option Caps)
    (h : eqCI c x = true) : (Re.chr c).run (x :: s) cs k = k s cs := by
  simp [Re.run, h]

theorem dropWhile_head_false (a : Str) :
    ∀ c t, a.dropWhile isWhiteSpace = c :: t → isWhiteSpace c = false := by
  induction a with
  | nil => intro c t h; cases h
  | cons x a ih =>
    intro c t h
    cases hx : isWhiteSpace x with
    | true => rw [List.dropWhile_cons_of_pos hx] at h; exact ih c t h
    | false =>
      rw [List.dropWhile_cons_of_neg (by simp [hx])] at h
      cases h; exact hx

theorem dropWhile_ne_nil (a : Str) (ha : isBlank a = false) :
    a.dropWhile isWhiteSpace ≠ [] := by
  intro h
  have h1 : ∀ c ∈ a, isWhiteSpace c = true := by
    simpa [List.dropWhile_eq_nil_iff] using h
  have h2 : isBlank a = true := by simpa [isBlank, List.all_eq_true] using h1
  rw [ha] at h2; cases h2

theorem jsTrim_dropWhile (a : Str) : jsTrim (a.dropWhile isWhiteSpace) = jsTrim a := by
  simp [jsTrim, List.dropWhile_idempotent]

/-- The run of `label\s*:\s*rest` on `label : a` followed by `r`: both greedy `\s*` succeed at
their longest repetition when `rest` matches after the leading white space of `a`. -/
theorem run_label (w : Str) (rest : Re) (a r : Str) (cs : Caps)
    (k : Str → Caps → Option Caps) (res : Caps)
    (hstop : ∀ c t, a.dropWhile isWhiteSpace ++ r = c :: t → isWhiteSpace c = false)
    (h : rest.run (a.dropWhile isWhiteSpace ++ r) cs k = some res) :
    (Re.label w rest).run (w ++ ' ' :: ':' :: ' ' :: (a ++ r)) cs k = some res := by
  have hsp2 : (Re.seq (.star true isWhiteSpace) rest).run (' ' :: (a ++ r)) cs k
      = some res := by
    have e : ' ' :: (a ++ r) =
        (' ' :: a.takeWhile isWhiteSpace) ++ (a.dropWhile isWhiteSpace ++ r) := by
      rw [List.cons_append, ← List.append_assoc, List.takeWhile_append_dropWhile]
    rw [run_seq, run_star_greedy, e]
    apply starGreedy_skip
    · exact hstop
    · exact h
    · intro c hc
      rcases List.mem_cons.1 hc with rfl | hc
      · decide
      · exact (List.mem_takeWhile_imp hc)
  have hcolon : (Re.seq (.chr ':') (.seq (.star true isWhiteSpace) rest)).run
      (':' :: ' ' :: (a ++ r)) cs k = some res := by
    rw [run_seq, run_chr_cons _ _ _ _ _ (by decide)]
    exact hsp2
  have hsp1 : (Re.seq (.star true isWhiteSpace) (.seq (.chr ':')
      (.seq (.star true isWhiteSpace) rest))).run
      (' ' :: ':' :: ' ' :: (a ++ r)) cs k = some res := by
    rw [run_seq, run_star_greedy]
    have e : ' ' :: ':' :: ' ' :: (a ++ r) = [' '] ++ (':' :: ' ' :: (a ++ r)) := rfl
    rw [e]
    apply starGreedy_skip
    · intro c t hc; cases hc; decide
    · exact hcolon
    · intro c hc
      rcases List.mem_singleton.1 hc with rfl
      decide
  rw [Re.label, run_seq, run_word, startsCI_self_append, if_pos rfl, List.drop_left]
  exact hsp1

/-- The run of `label\s*:\s*([\s\S]*?)tl` on `label : a` followed by `r`, when `a` is not
blank, `tl` matches at `r` and at no earlier place of `a`. -/
theorem run_label_lazy (w : Str) (tl : Re) (a r : Str) (cs : Caps)
    (k : Str → Caps → Option Caps) (res : Caps) (ha : isBlank a = false)
    (h1 : tl.run r ((1, a.dropWhile isWhiteSpace) :: cs) k = some res)
    (h2 : ∀ t, t ≠ [] → t <:+ a.dropWhile isWhiteSpace →
      ∀ ds, tl.run (t ++ r) ds k = none) :
    (Re.label w (.seq (.grp 1 (.star false anyChar)) tl)).run
      (w ++ ' ' :: ':' :: ' ' :: (a ++ r)) cs k = some res := by
  apply run_label
  · intro c t hc
    cases hd : a.dropWhile isWhiteSpace with
    | nil => exact absurd hd (dropWhile_ne_nil a ha)
    | cons d u =>
      rw [hd] at hc
      cases hc
      exact dropWhile_head_false a _ _ hd
  · rw [run_seq, run_grp, run_star_lazy]
    apply starLazy_first
    · simpa using h1
    · intro t ht hs; exact h2 t ht hs _

/-- The run of `label\s*:\s*([\s\S]*)` on `label : a` at the end of the input. -/
theorem run_label_greedy (w : Str) (a : Str) (cs : Caps) :
    (Re.label w (.grp 1 (.star true anyChar))).run (w ++ ' ' :: ':' :: ' ' :: a) cs
      (fun _ ds => some ds) = some ((1, a.dropWhile isWhiteSpace) :: cs) := by
  have h := run_label w (.grp 1 (.star true anyChar)) a [] cs (fun _ ds => some ds)
    ((1, a.dropWhile isWhiteSpace) :: cs)
  simp only [List.append_nil] at h
  apply h
  · exact dropWhile_head_false a
  · rw [run_grp, run_star_greedy]
    apply starGreedy_all
    simp

/-- Inside a text free of the word `w` and followed by `x`, which is no character of `w`,
the stop word `y w` matches nowhere. -/
theorem stop_free (w : Str) (y x : Char) (a r : Str) (hfree : occursCI w a = false)
    (hx : ∀ c ∈ w, eqCI c x = false) :
    ∀ t, t ≠ [] → t <:+ a → startsCI (y :: w) (t ++ x :: r) = false := by
  intro t ht hs
  cases t with
  | nil => exact absurd rfl ht
  | cons c t =>
    have hs1 : t <:+ a := (List.suffix_cons c t).trans hs
    cases h : startsCI w (t ++ x :: r) with
    | false => simp [startsCI, h]
    | true =>
      rcases startsCI_append_cons h with h2 | ⟨d, hd, h2⟩
      · rw [startsCI_of_suffix hfree hs1] at h2; cases h2
      · rw [hx d hd] at h2; cases h2

/-- The same at the end of the input. -/
theorem stop_free_end (w : Str) (y : Char) (a : Str) (hfree : occursCI w a = false) :
    ∀ t, t ≠ [] → t <:+ a → startsCI (y :: w) t = false := by
  intro t ht hs
  cases t with
  | nil => exact absurd rfl ht
  | cons c t =>
    have hs1 : t <:+ a := (List.suffix_cons c t).trans hs
    simp [startsCI, startsCI_of_suffix hfree hs1]

theorem exec_of_run (r : Re) (s : Str) (res : Caps)
    (h : r.run s [] (fun _ cs => some cs) = some res) : r.exec s = some res := by
  cases s <;> simp [Re.exec, h]

/-- The labelled expression with a stop word, run on `label : a`, a line break, the stop
word and any rest. -/
theorem run_label_word (w next : Str) (a rest : Str) (cs : Caps) (ha : isBlank a = false)
    (hfree : occursCI next a = false) (hnl : ∀ c ∈ next, eqCI c '\n' = false) :
    (Re.label w (.seq (.grp 1 (.star false anyChar)) (Re.word ('\n' :: next)))).run
      (w ++ ' ' :: ':' :: ' ' :: (a ++ '\n' :: (next ++ rest))) cs (fun _ ds => some ds)
      = some ((1, a.dropWhile isWhiteSpace) :: cs) := by
  apply run_label_lazy _ _ _ _ _ _ _ ha
  · have e := startsCI_self_append ('\n' :: next) rest
    rw [List.cons_append] at e
    rw [run_word, e]
    simp
  · intro t ht hs ds
    have hs1 : t <:+ a := hs.trans (List.dropWhile_suffix _)
    rw [run_word, stop_free next '\n' '\n' a (next ++ rest) hfree hnl t ht hs1]
    simp

/-- No match of `w` starts inside a labelled line `f : a` and its line break, when the
first letter of `w` is not in `f : `, `w` does not occur in `a` and has no line break. -/
theorem cleanB_field (w : Str) (h : Char) (v : Str) (hw : w = h :: v) (f a r : Str)
    (hf : ∀ c ∈ f ++ [' ', ':', ' '], eqCI h c = false) (ha : occursCI w a = false)
    (hn : ∀ c ∈ w, eqCI c '\n' = false) : cleanB w (field f a ++ ['\n']) r = true := by
  have e : field f a ++ ['\n'] = (f ++ [' ', ':', ' ']) ++ (a ++ ['\n']) := by
    simp [field]
  have hh : eqCI h '\n' = false := hn h (by rw [hw]; exact List.mem_cons_self _ _)
  have h1 : cleanB w (f ++ [' ', ':', ' ']) (a ++ ['\n'] ++ r) = true := by
    rw [hw]; exact cleanB_of_head h v _ _ hf
  have h2 : cleanB w a (['\n'] ++ r) = true := cleanB_of_free w '\n' r hn a ha
  have h3 : cleanB w ['\n'] r = true := by
    rw [hw]; exact cleanB_of_head h v _ _ (by simpa using hh)
  rw [e, cleanB_append, h1, Bool.true_and, cleanB_append, h2, h3]
  rfl

/-- The same for the last line of the caption. -/
theorem cleanB_field_end (w : Str) (h : Char) (v : Str) (hw : w = h :: v) (f a : Str)
    (hf : ∀ c ∈ f ++ [' ', ':', ' '], eqCI h c = false) (ha : occursCI w a = false) :
    cleanB w (field f a) [] = true := by
  have e : field f a = (f ++ [' ', ':', ' ']) ++ a := by simp [field]
  rw [e, cleanB_append, Bool.and_eq_true]
  refine ⟨?_, cleanB_of_free_end w a ha⟩
  rw [hw]; exact cleanB_of_head h v _ _ hf

theorem hasLabel_false {s : Str} (h : hasLabel s = false) :
    occursCI wTitle s = false ∧ occursCI wContent s = false ∧
    occursCI wHashtags s = false ∧ occursCI wDate s = false := by
  simpa [hasLabel, and_assoc] using h

/-- The title expression on a caption that starts with `Title : a` and a `Content` line. -/
theorem exec_title (a rest : Str) (ha : isBlank a = false)
    (hfree : occursCI wContent a = false) :
    titleRe.exec (field wTitle a ++ '\n' :: (wContent ++ rest))
      = some [(1, a.dropWhile isWhiteSpace)] := by
  apply exec_of_run
  exact run_label_word wTitle wContent a rest [] ha hfree (by decide)

/-- The content expression on a caption whose `Title` line is free of `Content`. -/
theorem exec_content (a b rest : Str) (hb : isBlank b = false)
    (hfa : occursCI wContent a = false) (hfb : occursCI wHashtags b = false) :
    contentRe.exec (field wTitle a ++ '\n' :: (field wContent b ++ '\n' ::
      (wHashtags ++ rest))) = some [(1, b.dropWhile isWhiteSpace)] := by
  have e : field wTitle a ++ '\n' :: (field wContent b ++ '\n' :: (wHashtags ++ rest))
      = (field wTitle a ++ ['\n']) ++
        (wContent ++ ' ' :: ':' :: ' ' :: (b ++ '\n' :: (wHashtags ++ rest))) := by
    simp [field]
  rw [e, contentRe, exec_label_skip _ _ _ _
    (cleanB_field wContent 'C' _ rfl wTitle a _ (by decide) hfa (by decide))]
  apply exec_of_run
  exact run_label_word wContent wHashtags b rest [] hb hfb (by decide)

theorem run_alt (a b : Re) (s : Str) (cs : Caps) (k : Str → Caps → Option Caps) :
    (Re.alt a b).run s cs k =
      match a.run s cs k with
      | some r => some r
      | none => b.run s cs k := by
  simp [Re.run]

/-- The hashtags expression run on the last line `Hashtags : c` of a caption. -/
theorem run_hashtags_end (c : Str) (hc : isBlank c = false)
    (hfree : occursCI wDate c = false) :
    ∃ g, hashtagsRe.run (wHashtags ++ ' ' :: ':' :: ' ' :: (c ++ [])) []
      (fun _ ds => some ds) = some [(2, g), (1, c.dropWhile isWhiteSpace)] := by
  refine ⟨[], ?_⟩
  apply run_label_lazy _ _ _ _ _ _ _ hc
  · simp [run_grp, run_alt, run_word, startsCI, Re.run]
  · intro t ht hs ds
    have hs1 : t <:+ c := hs.trans (List.dropWhile_suffix _)
    rw [List.append_nil, run_grp, run_alt, run_word,
      stop_free_end wDate '\n' c hfree t ht hs1]
    cases t with
    | nil => exact absurd rfl ht
    | cons x t => simp [Re.run]

/-- The hashtags expression run on the line `Hashtags : c` followed by a `Date` line. -/
theorem run_hashtags_date (c rest : Str) (hc : isBlank c = false)
    (hfree : occursCI wDate c = false) :
    ∃ g, hashtagsRe.run (wHashtags ++ ' ' :: ':' :: ' ' :: (c ++ '\n' :: (wDate ++ rest))) []
      (fun _ ds => some ds) = some [(2, g), (1, c.dropWhile isWhiteSpace)] := by
  refine ⟨'\n' :: wDate, ?_⟩
  apply run_label_lazy _ _ _ _ _ _ _ hc
  · have e := startsCI_self_append ('\n' :: wDate) rest
    rw [List.cons_append] at e
    rw [run_grp, run_alt, run_word, e]
    simp only [wDate, if_true, List.cons_append, List.nil_append, List.length_cons,
      List.drop_succ_cons, List.drop_zero, List.length_nil]
    have hl : rest.length + 1 + 1 + 1 + 1 + 1 - rest.length = 5 := by omega
    rw [hl]
    rfl
  · intro t ht hs ds
    have hs1 : t <:+ c := hs.trans (List.dropWhile_suffix _)
    rw [run_grp, run_alt, run_word,
      stop_free wDate '\n' '\n' c (wDate ++ rest) hfree (by decide) t ht hs1]
    cases t with
    | nil => exact absurd rfl ht
    | cons x t => simp [Re.run]

/-- No match of the hashtags expression starts before the `Hashtags` line. -/
theorem exec_hashtags_skip (a b r : Str) (hfa : occursCI wHashtags a = false)
    (hfb : occursCI wHashtags b = false) :
    hashtagsRe.exec (field wTitle a ++ '\n' :: (field wContent b ++ '\n' :: r))
      = hashtagsRe.exec r := by
  have e : field wTitle a ++ '\n' :: (field wContent b ++ '\n' :: r)
      = (field wTitle a ++ ['\n']) ++ ((field wContent b ++ ['\n']) ++ r) := by
    simp [field]
  rw [e, hashtagsRe, exec_label_skip _ _ _ _
    (cleanB_field wHashtags 'H' _ rfl wTitle a _ (by decide) hfa (by decide)),
    exec_label_skip _ _ _ _
    (cleanB_field wHashtags 'H' _ rfl wContent b _ (by decide) hfb (by decide))]

/-- The date expression matches nowhere in a three-line caption free of `Date`. -/
theorem exec_date_none (a b c : Str) (hfa : occursCI wDate a = false)
    (hfb : occursCI wDate b = false) (hfc : occursCI wDate c = false) :
    dateRe.exec (caption3 a b c) = none := by
  have e : caption3 a b c
      = (field wTitle a ++ ['\n']) ++ ((field wContent b ++ ['\n']) ++ field wHashtags c) := by
    simp [caption3, field]
  apply exec_label_none _ _ (by decide)
  rw [e]
  exact cleanB_append_of
    (cleanB_field wDate 'D' _ rfl wTitle a _ (by decide) hfa (by decide))
    (cleanB_append_of
      (cleanB_field wDate 'D' _ rfl wContent b _ (by decide) hfb (by decide))
      (cleanB_field_end wDate 'D' _ rfl wHashtags c (by decide) hfc))

/-- The date expression finds the `Date` line of a four-line caption. -/
theorem exec_date_some (a b c d : Str) (hfa : occursCI wDate a = false)
    (hfb : occursCI wDate b = false) (hfc : occursCI wDate c = false) :
    dateRe.exec (caption4 a b c d) = some [(1, d.dropWhile isWhiteSpace)] := by
  have e : caption4 a b c d
      = ((field wTitle a ++ ['\n']) ++ ((field wContent b ++ ['\n']) ++
          (field wHashtags c ++ ['\n']))) ++ (wDate ++ ' ' :: ':' :: ' ' :: d) := by
    simp [caption4, caption3, field]
  have hclean : cleanB wDate ((field wTitle a ++ ['\n']) ++ ((field wContent b ++ ['\n']) ++
      (field wHashtags c ++ ['\n']))) (wDate ++ ' ' :: ':' :: ' ' :: d) = true :=
    cleanB_append_of
      (cleanB_field wDate 'D' _ rfl wTitle a _ (by decide) hfa (by decide))
      (cleanB_append_of
        (cleanB_field wDate 'D' _ rfl wContent b _ (by decide) hfb (by decide))
        (cleanB_field wDate 'D' _ rfl wHashtags c _ (by decide) hfc (by decide)))
  rw [e, dateRe, exec_label_skip _ _ _ _ hclean]
  exact exec_of_run _ _ _ (run_label_greedy wDate d [])

/-- C1: for all texts `a`, `b`, `c` that are not blank and contain none of the label words
(in any letter case), the caption parsing of the photo handler applied to
`Title : a\nContent : b\nHashtags : c` succeeds with the trimmed texts as title, content and
hashtags and the current date as date; applied to the same caption followed by `\nDate : d`
(for any text `d`) it gives the same title, content and hashtags, and the trimmed `d` as
date. -/
theorem parseCaption_roundtrip (today a b c d : Str)
    (ha : isBlank a = false) (hb : isBlank b = false) (hc : isBlank c = false)
    (la : hasLabel a = false) (lb : hasLabel b = false) (lc : hasLabel c = false) :
    parseCaption today (caption3 a b c)
      = some { title := jsTrim a, content := jsTrim b, hashtags := jsTrim c, date := today } ∧
    parseCaption today (caption4 a b c d)
      = some { title := jsTrim a, content := jsTrim b, hashtags := jsTrim c,
               date := jsTrim d } := by
  obtain ⟨-, laC, laH, laD⟩ := hasLabel_false la
  obtain ⟨-, -, lbH, lbD⟩ := hasLabel_false lb
  obtain ⟨-, -, -, lcD⟩ := hasLabel_false lc
  constructor
  · have e1 : caption3 a b c = field wTitle a ++ '\n' :: (wContent ++
        (' ' :: ':' :: ' ' :: (b ++ '\n' :: field wHashtags c))) := by
      simp [caption3, field]
    have e2 : caption3 a b c = field wTitle a ++ '\n' :: (field wContent b ++ '\n' ::
        (wHashtags ++ (' ' :: ':' :: ' ' :: c))) := by
      simp [caption3, field]
    have e3 : caption3 a b c = field wTitle a ++ '\n' :: (field wContent b ++ '\n' ::
        (wHashtags ++ ' ' :: ':' :: ' ' :: (c ++ []))) := by
      simp [caption3, field]
    have t1 : titleRe.exec (caption3 a b c) = some [(1, a.dropWhile isWhiteSpace)] := by
      rw [e1]; exact exec_title a _ ha laC
    have t2 : contentRe.exec (caption3 a b c) = some [(1, b.dropWhile isWhiteSpace)] := by
      rw [e2]; exact exec_content a b _ hb laC lbH
    obtain ⟨g, hg⟩ := run_hashtags_end c hc lcD
    have t3 : hashtagsRe.exec (caption3 a b c)
        = some [(2, g), (1, c.dropWhile isWhiteSpace)] := by
      rw [e3, exec_hashtags_skip a b _ laH lbH]
      exact exec_of_run _ _ _ hg
    simp [parseCaption, t1, t2, t3, exec_date_none a b c laD lbD lcD, group,
      jsTrim_dropWhile]
  · have e1 : caption4 a b c d = field wTitle a ++ '\n' :: (wContent ++
        (' ' :: ':' :: ' ' :: (b ++ '\n' :: (field wHashtags c ++ '\n' :: field wDate d)))) := by
      simp [caption4, caption3, field]
    have e2 : caption4 a b c d = field wTitle a ++ '\n' :: (field wContent b ++ '\n' ::
        (wHashtags ++ (' ' :: ':' :: ' ' :: (c ++ '\n' :: field wDate d)))) := by
      simp [caption4, caption3, field]
    have e3 : caption4 a b c d = field wTitle a ++ '\n' :: (field wContent b ++ '\n' ::
        (wHashtags ++ ' ' :: ':' :: ' ' :: (c ++ '\n' :: (wDate ++ ' ' :: ':' :: ' ' :: d)))) := by
      simp [caption4, caption3, field]
    have t1 : titleRe.exec (caption4 a b c d) = some [(1, a.dropWhile isWhiteSpace)] := by
      rw [e1]; exact exec_title a _ ha laC
    have t2 : contentRe.exec (caption4 a b c d) = some [(1, b.dropWhile isWhiteSpace)] := by
      rw [e2]; exact exec_content a b _ hb laC lbH
    obtain ⟨g, hg⟩ := run_hashtags_date c (' ' :: ':' :: ' ' :: d) hc lcD
    have t3 : hashtagsRe.exec (caption4 a b c d)
        = some [(2, g), (1, c.dropWhile isWhiteSpace)] := by
      rw [e3, exec_hashtags_skip a b _ laH lbH]
      exact exec_of_run _ _ _ hg
    simp [parseCaption, t1, t2, t3, exec_date_some a b c d laD lbD lcD, group,
      jsTrim_dropWhile]

/-- Witness of C1 at the caption of the end-to-end scenario. -/
theorem parseCaption_roundtrip_witness :
    parseCaption ['0', '6', ' ', 'N', 'O', 'V'] (caption3 ['S', 'u', 'n'] ['N', 'i', 'c', 'e']
        [' ', '#', 'v', '\n'])
      = some { title := jsTrim ['S', 'u', 'n'], content := jsTrim ['N', 'i', 'c', 'e'],
               hashtags := jsTrim [' ', '#', 'v', '\n'],
               date := ['0', '6', ' ', 'N', 'O', 'V'] } ∧
    parseCaption ['0', '6', ' ', 'N', 'O', 'V'] (caption4 ['S', 'u', 'n'] ['N', 'i', 'c', 'e']
        [' ', '#', 'v', '\n'] ['0', '1', ' ', 'J', 'A', 'N'])
      = some { title := jsTrim ['S', 'u', 'n'], content := jsTrim ['N', 'i', 'c', 'e'],
               hashtags := jsTrim [' ', '#', 'v', '\n'],
               date := jsTrim ['0', '1', ' ', 'J', 'A', 'N'] } :=
  parseCaption_roundtrip _ _ _ _ _ (by decide) (by decide) (by decide) (by decide)
    (by decide) (by decide)

/-! ## Facts about the world -/

@[simp] theorem emit_trace (w : World) (e : Effect) : (w.emit e).trace = w.trace ++ [e] := rfl

@[simp] theorem emit_fs (w : World) (e : Effect) : (w.emit e).fs = w.fs := rfl

@[simp] theorem emit_userStates (w : World) (e : Effect) :
    (w.emit e).userStates = w.userStates := rfl

@[simp] theorem log_trace (w : World) (f : Path) (l : Level) :
    (w.log f l).trace = w.trace ++ [.log l f] := rfl

@[simp] theorem log_fs (w : World) (f : Path) (l : Level) :
    (w.log f l).fs = w.fs.writeFileSync f := rfl

@[simp] theorem log_userStates (w : World) (f : Path) (l : Level) :
    (w.log f l).userStates = w.userStates := rfl

@[simp] theorem updateStatus_trace (w : World) (f : Path) (c : Int) (t : String) :
    (w.updateStatus f c t).trace = w.trace ++ [.log .info f, .editMessageText c t] := by
  simp [World.updateStatus]

@[simp] theorem updateStatus_fs (w : World) (f : Path) (c : Int) (t : String) :
    (w.updateStatus f c t).fs = w.fs.writeFileSync f := rfl

@[simp] theorem updateStatus_userStates (w : World) (f : Path) (c : Int) (t : String) :
    (w.updateStatus f c t).userStates = w.userStates := rfl

@[simp] theorem setSession_trace (w : World) (c : Int) (s : Session) :
    (w.setSession c s).trace = w.trace := rfl

@[simp] theorem setSession_fs (w : World) (c : Int) (s : Session) :
    (w.setSession c s).fs = w.fs := rfl

@[simp] theorem setSession_same (w : World) (c : Int) (s : Session) :
    (w.setSession c s).userStates c = some s := by
  simp [World.setSession]

@[simp] theorem writeFileSync_dirs (fs : FS) (p : Path) : (fs.writeFileSync p).dirs = fs.dirs := by
  unfold FS.writeFileSync
  split <;> rfl

theorem mem_writeFileSync (fs : FS) (p q : Path) :
    q ∈ (fs.writeFileSync p).files ↔ q ∈ fs.files ∨ q = p := by
  by_cases h : p ∈ fs.files
  · have e : fs.writeFileSync p = fs := by simp [FS.writeFileSync, h]
    rw [e]
    constructor
    · exact Or.inl
    · rintro (h1 | rfl)
      · exact h1
      · exact h
  · simp [FS.writeFileSync, h]

/-! ## The launch of the browser -/

/-- C10: `launchBrowserWithRetry` with the default `maxRetries = 3`.  When the three launches
fail, three attempts are made, each followed by a warning, with a wait of 2000 ms after the
first and after the second only, and the error of the third attempt is thrown.  When the
first success is at attempt 1, 2 or 3, that many attempts and one wait fewer are made and
the browser of that attempt is returned. -/
theorem launchBrowserWithRetry_default (launch : Nat → Except String Nat) (logFile : Path)
    (w : World) :
    (∀ e1 e2 e3, launch 0 = .error e1 → launch 1 = .error e2 → launch 2 = .error e3 →
      (launchBrowserWithRetry launch logFile defaultMaxRetries w).2 = .thrown e3 ∧
      (launchBrowserWithRetry launch logFile defaultMaxRetries w).1.trace = w.trace ++
        [.launch 1, .log .warn logFile, .wait 2000, .launch 2, .log .warn logFile, .wait 2000,
         .launch 3, .log .warn logFile]) ∧
    (∀ b, launch 0 = .ok b →
      (launchBrowserWithRetry launch logFile defaultMaxRetries w).2 = .browser b ∧
      (launchBrowserWithRetry launch logFile defaultMaxRetries w).1.trace = w.trace ++
        [.launch 1]) ∧
    (∀ e1 b, launch 0 = .error e1 → launch 1 = .ok b →
      (launchBrowserWithRetry launch logFile defaultMaxRetries w).2 = .browser b ∧
      (launchBrowserWithRetry launch logFile defaultMaxRetries w).1.trace = w.trace ++
        [.launch 1, .log .warn logFile, .wait 2000, .launch 2]) ∧
    (∀ e1 e2 b, launch 0 = .error e1 → launch 1 = .error e2 → launch 2 = .ok b →
      (launchBrowserWithRetry launch logFile defaultMaxRetries w).2 = .browser b ∧
      (launchBrowserWithRetry launch logFile defaultMaxRetries w).1.trace = w.trace ++
        [.launch 1, .log .warn logFile, .wait 2000, .launch 2, .log .warn logFile, .wait 2000,
         .launch 3]) := by
  refine ⟨?_, ?_, ?_, ?_⟩
  · intro e1 e2 e3 h0 h1 h2
    simp [launchBrowserWithRetry, defaultMaxRetries, launchLoop, h0, h1, h2]
  · intro b h0
    simp [launchBrowserWithRetry, defaultMaxRetries, launchLoop, h0]
  · intro e1 b h0 h1
    simp [launchBrowserWithRetry, defaultMaxRetries, launchLoop, h0, h1]
  · intro e1 e2 b h0 h1 h2
    simp [launchBrowserWithRetry, defaultMaxRetries, launchLoop, h0, h1, h2]

/-- Witness of C10: three failed launches, and a launch that succeeds at the second attempt,
from the world after start-up. -/
theorem launchBrowserWithRetry_default_witness :
    ((launchBrowserWithRetry (fun _ => .error "timeout") mainLog defaultMaxRetries
        startWorld).2 = .thrown "timeout" ∧
      (launchBrowserWithRetry (fun _ => .error "timeout") mainLog defaultMaxRetries
        startWorld).1.trace = startWorld.trace ++
        [.launch 1, .log .warn mainLog, .wait 2000, .launch 2, .log .warn mainLog, .wait 2000,
         .launch 3, .log .warn mainLog]) ∧
    ((launchBrowserWithRetry (fun i => if i = 0 then .error "timeout" else .ok 7) mainLog
        defaultMaxRetries startWorld).2 = .browser 7 ∧
      (launchBrowserWithRetry (fun i => if i = 0 then .error "timeout" else .ok 7) mainLog
        defaultMaxRetries startWorld).1.trace = startWorld.trace ++
        [.launch 1, .log .warn mainLog, .wait 2000, .launch 2]) :=
  ⟨(launchBrowserWithRetry_default (fun _ => .error "timeout") mainLog startWorld).1
      "timeout" "timeout" "timeout" rfl rfl rfl,
   (launchBrowserWithRetry_default (fun i => if i = 0 then .error "timeout" else .ok 7) mainLog
      startWorld).2.2.1 "timeout" 7 rfl rfl⟩

/-! ## The encode pipeline -/

theorem generateVideo_userStates (env : Env) (w : World) (chatId : Int) (postData : Post) :
    (generateVideo env w chatId postData).userStates = w.userStates := by
  unfold generateVideo
  cases postData.audio with
  | none => simp
  | some audio =>
    simp only []
    split
    · simp
    · split
      · simp
      · split <;> simp

/-- Counterexample of C6: after the confirm event on the world that holds the preview of the
sunset post, with a successful encoding, the session of user 1 is still in `waiting_photo`
and still holds the pending post. -/
theorem confirm_keeps_pending_post :
    previewWorld.userStates 1 = some
      { step := .waiting_photo, audio := some "audioI.mp3".toList, lastPost := some sunsetPost } ∧
    Effect.sendVideo 1 (sunsetPost.postDir ++ ["video.mp4".toList]) ∈
      (onCallback sampleEnv previewWorld 1 .confirm_generate).trace ∧
    (onCallback sampleEnv previewWorld 1 .confirm_generate).userStates 1 = some
      { step := .waiting_photo, audio := some "audioI.mp3".toList, lastPost := some sunsetPost } := by
  decide

/-- C6, amended: for every session that holds a pending post, the confirm event leaves the
session as it was, with the same step, the same audio and the same pending post, whatever
the outcome of the encode pipeline; a second confirm event is therefore accepted and runs
`generateVideo` on the same post again. -/
theorem confirm_session_unchanged (env env2 : Env) (w : World) (chatId : Int) (s : Session)
    (post : Post) (hs : w.userStates chatId = some s) (hp : s.lastPost = some post) :
    (onCallback env w chatId .confirm_generate).userStates chatId = some s ∧
    onCallback env2 (onCallback env w chatId .confirm_generate) chatId .confirm_generate
      = generateVideo env2
          (((onCallback env w chatId .confirm_generate).log mainLog .info).emit
            (.answerCallbackQuery "🎬 Generating video...")) chatId post := by
  have h1 : (onCallback env w chatId .confirm_generate).userStates chatId = some s := by
    simp [onCallback, hs, hp, generateVideo_userStates]
  refine ⟨h1, ?_⟩
  generalize onCallback env w chatId .confirm_generate = v at h1
  simp [onCallback, h1, hp]

/-- Witness of the amended C6 at the world that holds the preview of the sunset post. -/
theorem confirm_session_unchanged_witness :
    (onCallback sampleEnv previewWorld 1 .confirm_generate).userStates 1 = some
      { step := .waiting_photo, audio := some "audioI.mp3".toList, lastPost := some sunsetPost } ∧
    onCallback sampleEnv (onCallback sampleEnv previewWorld 1 .confirm_generate) 1
        .confirm_generate
      = generateVideo sampleEnv
          (((onCallback sampleEnv previewWorld 1 .confirm_generate).log mainLog .info).emit
            (.answerCallbackQuery "🎬 Generating video...")) 1 sunsetPost :=
  confirm_session_unchanged sampleEnv sampleEnv previewWorld 1 _ sunsetPost (by decide) rfl

/-- C5: for every session that holds a pending post whose preview file exists (and is not
the log file of the post: `renderAndPreview` builds it as `preview.png` in the post
directory), the cancel event removes the preview file and resets the session to
`menu_selection` with no audio and no pending post; a confirm event handled right after is
answered with the notice "Post data not found", leaves the sessions unchanged, writes nothing
but its log line and produces no effect of the encode pipeline. -/
theorem cancel_then_confirm (env env2 : Env) (w : World) (chatId : Int) (s : Session)
    (post : Post) (hs : w.userStates chatId = some s) (hp : s.lastPost = some post)
    (hfile : post.previewPath ∈ w.fs.files)
    (hlog : post.previewPath ≠ getLogFile post.postDir) :
    post.previewPath ∉ (onCallback env w chatId .cancel_post).fs.files ∧
    (onCallback env w chatId .cancel_post).userStates chatId
      = some { step := .menu_selection, audio := none, lastPost := none } ∧
    (onCallback env2 (onCallback env w chatId .cancel_post) chatId .confirm_generate).userStates
      = (onCallback env w chatId .cancel_post).userStates ∧
    (onCallback env2 (onCallback env w chatId .cancel_post) chatId .confirm_generate).trace
      = (onCallback env w chatId .cancel_post).trace ++
        [.log .info mainLog, .answerCallbackQuery "❌ Error: Post data not found"] ∧
    (onCallback env2 (onCallback env w chatId .cancel_post) chatId .confirm_generate).fs
      = (onCallback env w chatId .cancel_post).fs.writeFileSync mainLog := by
  have hsess : (onCallback env w chatId .cancel_post).userStates chatId
      = some { step := .menu_selection, audio := none, lastPost := none } := by
    simp [onCallback]
  have hconfirm : ∀ v : World,
      v.userStates chatId = some { step := .menu_selection, audio := none, lastPost := none } →
      (onCallback env2 v chatId .confirm_generate).userStates = v.userStates ∧
      (onCallback env2 v chatId .confirm_generate).trace = v.trace ++
        [.log .info mainLog, .answerCallbackQuery "❌ Error: Post data not found"] ∧
      (onCallback env2 v chatId .confirm_generate).fs = v.fs.writeFileSync mainLog := by
    intro v hv
    simp [onCallback, hv]
  refine ⟨?_, hsess, hconfirm _ hsess⟩
  have hin : post.previewPath ∈ (w.fs.writeFileSync mainLog).files :=
    (mem_writeFileSync _ _ _).2 (Or.inl hfile)
  have hex : (w.fs.writeFileSync mainLog).existsSync post.previewPath = true := by
    simp [FS.existsSync, hin]
  have hun : (w.fs.writeFileSync mainLog).unlinkSync post.previewPath
      = some { dirs := (w.fs.writeFileSync mainLog).dirs,
               files := (w.fs.writeFileSync mainLog).files.filter
                 (fun q => q != post.previewPath) } := by
    simp [FS.unlinkSync, hin]
  have hfs : (onCallback env w chatId .cancel_post).fs
      = FS.writeFileSync ⟨(w.fs.writeFileSync mainLog).dirs,
          (w.fs.writeFileSync mainLog).files.filter (fun q => q != post.previewPath)⟩
          (getLogFile post.postDir) := by
    simp [onCallback, hs, hp, hex, hun]
  rw [hfs, mem_writeFileSync]
  rintro (h | h)
  · simp at h
  · exact hlog h

/-- Witness of C5 at the world that holds the preview of the sunset post. -/
theorem cancel_then_confirm_witness :
    sunsetPost.previewPath ∉ (onCallback sampleEnv previewWorld 1 .cancel_post).fs.files ∧
    (onCallback sampleEnv previewWorld 1 .cancel_post).userStates 1
      = some { step := .menu_selection, audio := none, lastPost := none } ∧
    (onCallback sampleEnv (onCallback sampleEnv previewWorld 1 .cancel_post) 1
        .confirm_generate).userStates
      = (onCallback sampleEnv previewWorld 1 .cancel_post).userStates ∧
    (onCallback sampleEnv (onCallback sampleEnv previewWorld 1 .cancel_post) 1
        .confirm_generate).trace
      = (onCallback sampleEnv previewWorld 1 .cancel_post).trace ++
        [.log .info mainLog, .answerCallbackQuery "❌ Error: Post data not found"] ∧
    (onCallback sampleEnv (onCallback sampleEnv previewWorld 1 .cancel_post) 1
        .confirm_generate).fs
      = (onCallback sampleEnv previewWorld 1 .cancel_post).fs.writeFileSync mainLog :=
  cancel_then_confirm sampleEnv sampleEnv previewWorld 1
    { step := .waiting_photo, audio := some "audioI.mp3".toList, lastPost := some sunsetPost }
    sunsetPost (by decide) rfl (by decide) (by decide)

/-! ## The photo handler -/

/-- Counterexample of C8: a photo sent while the menu is shown produces no effect at all, so
no notice reaches the user. -/
theorem photo_in_menu_silent :
    menuWorld.userStates 1 = some { step := .menu_selection, audio := none, lastPost := none } ∧
    (onPhoto sampleEnv menuWorld 1 (some sunsetCaption)).trace = [] := by
  decide

/-- C8, amended: for every existing session whose step is not `waiting_photo`, a photo event
is a silent no-op: the sessions, the file system and the trace of effects are left as they
were, and no notice is sent. -/
theorem photo_outside_waiting (env : Env) (w : World) (chatId : Int) (caption : Option Str)
    (s : Session) (hs : w.userStates chatId = some s) (hstep : s.step ≠ .waiting_photo) :
    onPhoto env w chatId caption = w := by
  simp [onPhoto, hs, hstep]

/-- Witness of the amended C8 at the world in which the menu is shown. -/
theorem photo_outside_waiting_witness :
    onPhoto sampleEnv menuWorld 1 (some sunsetCaption) = menuWorld :=
  photo_outside_waiting sampleEnv menuWorld 1 _
    { step := .menu_selection, audio := none, lastPost := none } (by decide) (by decide)

theorem mkdirSync_some {fs fs1 : FS} {p : Path} (h : fs.mkdirSync p = some fs1) :
    fs1.files = fs.files ∧ ∀ q, q ∈ fs1.dirs ↔ q ∈ fs.dirs ∨ q ∈ p.inits.tail := by
  unfold FS.mkdirSync at h
  split at h
  · cases h
  · cases h
    refine ⟨rfl, fun q => ?_⟩
    simp only [List.mem_append, List.mem_filter]
    constructor
    · rintro (h1 | ⟨h1, -⟩)
      · exact Or.inl h1
      · exact Or.inr h1
    · rintro (h1 | h1)
      · exact Or.inl h1
      · by_cases hq : q ∈ fs.dirs
        · exact Or.inl hq
        · refine Or.inr ⟨h1, ?_⟩
          simp [hq]

theorem mem_inits_tail_self (p : Path) (hp : p ≠ []) : p ∈ p.inits.tail := by
  cases p with
  | nil => exact absurd rfl hp
  | cons a p => simp [List.inits]

/-- The path returned by `createPostDirectory` is the post directory of the date bucket of
`today`, and it is a directory afterwards unless a regular file has its path. -/
theorem createPostDirectory_some {fs : FS} {today now : Clock} {index : Nat} {p : Path}
    (h : (createPostDirectory fs today now index).2 = some p) :
    p = [mainOutputDir, dateFolder today, postFolderName index (getFormattedTime now)] ∧
    (p ∉ fs.files → p ∈ (createPostDirectory fs today now index).1.dirs) := by
  unfold createPostDirectory at h ⊢
  simp only [] at h ⊢
  split at h
  · cases h
  · rename_i fs1 h1
    have hfiles : fs1.files = fs.files := by
      split at h1
      · cases h1; rfl
      · exact (mkdirSync_some h1).1
    split at h
    · cases h
    · rename_i fs2 h2
      simp only [Option.some.injEq] at h
      subst h
      refine ⟨rfl, fun hnf => ?_⟩
      simp only []
      split at h2
      · rename_i hex
        cases h2
        simp only [FS.existsSync, Bool.or_eq_true, List.contains_eq_any_beq, List.any_eq_true,
          beq_iff_eq] at hex
        rcases hex with ⟨q, hq, rfl⟩ | ⟨q, hq, rfl⟩
        · exact hq
        · rw [hfiles] at hq; exact absurd hq hnf
      · exact ((mkdirSync_some h2).2 _).2 (Or.inr (mem_inits_tail_self _ (by simp)))

/-- Counterexample of C7: the caption without hashtags, sent by user 1 who has selected an
audio track, leaves two new directories under the output root. -/
theorem photo_invalid_caption_creates_dirs :
    waitingWorld.fs.dirs = [[mainOutputDir]] ∧
    (onPhoto sampleEnv waitingWorld 1 (some shortCaption)).fs.dirs =
      [[mainOutputDir], [mainOutputDir, "2026-11-06".toList],
       [mainOutputDir, "2026-11-06".toList, "post01_0905".toList]] := by
  decide

/-- C7, amended: for every photo event received in `waiting_photo` with a selected audio
whose caption is invalid (missing, empty or rejected by the parser), the post directory is
allocated before the caption is examined: when `createPostDirectory` returns `postDir`, the
directories after the handler are those left by the allocation, and `postDir` is one of them
(provided no regular file already had that path). -/
theorem photo_invalid_caption_allocates (env : Env) (w : World) (chatId : Int) (s : Session)
    (audio : Str) (caption : Option Str) (postDir : Path)
    (hs : w.userStates chatId = some s) (hstep : s.step = .waiting_photo)
    (haudio : s.audio = some audio)
    (hinvalid : caption = none ∨ caption = some [] ∨
      ∃ cap, caption = some cap ∧ parseCaption (toUpperCase env.localeDate) cap = none)
    (halloc : (allocate (w.fs.writeFileSync mainLog) env.today env.now).2 = some postDir)
    (hfile : postDir ∉ w.fs.files) :
    (onPhoto env w chatId caption).fs.dirs
      = (allocate (w.fs.writeFileSync mainLog) env.today env.now).1.dirs ∧
    postDir ∈ (onPhoto env w chatId caption).fs.dirs := by
  have hc := createPostDirectory_some halloc
  have hin : postDir ∈ (allocate (w.fs.writeFileSync mainLog) env.today env.now).1.dirs := by
    apply hc.2
    rw [mem_writeFileSync]
    rintro (h | h)
    · exact hfile h
    · rw [hc.1] at h
      have := congrArg List.length h
      simp [mainLog] at this
  have hdirs : (onPhoto env w chatId caption).fs.dirs
      = (allocate (w.fs.writeFileSync mainLog) env.today env.now).1.dirs := by
    cases hal : allocate (w.fs.writeFileSync mainLog) env.today env.now with
    | mk fs1 r =>
      rw [hal] at halloc
      simp only at halloc
      subst halloc
      rcases hinvalid with h | h | ⟨cap, h, hp⟩
      · subst h
        simp [onPhoto, hs, hstep, haudio, hal]
      · subst h
        simp [onPhoto, hs, hstep, haudio, hal]
      · subst h
        cases cap with
        | nil => simp [onPhoto, hs, hstep, haudio, hal]
        | cons c cs => simp [onPhoto, hs, hstep, haudio, hal, hp]
  exact ⟨hdirs, hdirs ▸ hin⟩

/-- Witness of the amended C7: the caption without hashtags sent by user 1. -/
theorem photo_invalid_caption_allocates_witness :
    (onPhoto sampleEnv waitingWorld 1 (some shortCaption)).fs.dirs
      = (allocate (waitingWorld.fs.writeFileSync mainLog) sampleEnv.today sampleEnv.now).1.dirs ∧
    sunsetPost.postDir ∈ (onPhoto sampleEnv waitingWorld 1 (some shortCaption)).fs.dirs :=
  photo_invalid_caption_allocates sampleEnv waitingWorld 1
    { step := .waiting_photo, audio := some "audioI.mp3".toList, lastPost := none }
    "audioI.mp3".toList (some shortCaption) sunsetPost.postDir (by decide) rfl rfl
    (Or.inr (Or.inr ⟨shortCaption, rfl, by decide⟩)) (by decide) (by decide)

/-- C4, the code at the failing input: the output root holds the bucket of 5 November with
two posts and no bucket for 6 November; the allocation of 6 November finds no sub-directory
in its own bucket, yet it computes the index 3 and creates `post03_0905`. -/
theorem postIndex_counts_latest_bucket :
    (dayBeforeFS.subdirs [mainOutputDir, dateFolder sampleEnv.today]).length = 0 ∧
    postIndex dayBeforeFS = 3 ∧
    (allocate dayBeforeFS sampleEnv.today sampleEnv.now).2
      = some [mainOutputDir, "2026-11-06".toList, "post03_0905".toList] := by
  decide

/-! ## The names of the post directories -/

theorem digitsValue_append (s : Str) (c : Char) :
    digitsValue (s ++ [c]) = 10 * digitsValue s + (c.toNat - 48) := by
  simp [digitsValue, List.foldl_append]

theorem digitChar_toNat (d : Nat) (h : d < 10) : (Char.ofNat (48 + d)).toNat = 48 + d := by
  interval_cases d <;> rfl

theorem digitsValue_decimalFuel : ∀ fuel n : Nat, n < fuel →
    digitsValue (decimalFuel fuel n) = n := by
  intro fuel
  induction fuel with
  | zero => intro n h; omega
  | succ fuel ih =>
    intro n h
    unfold decimalFuel
    by_cases hn : n < 10
    · simp [hn, digitsValue, digitChar_toNat n hn]
    · have h1 : n / 10 < fuel := by omega
      simp only [hn, if_false, digitsValue_append, ih (n / 10) h1,
        digitChar_toNat (n % 10) (Nat.mod_lt _ (by decide))]
      omega

theorem digitsValue_decimal (n : Nat) : digitsValue (decimal n) = n :=
  digitsValue_decimalFuel (n + 1) n (Nat.lt_succ_self n)

theorem digitsValue_zeros (k : Nat) (s : Str) :
    digitsValue (List.replicate k '0' ++ s) = digitsValue s := by
  induction k with
  | zero => rfl
  | succ k ih =>
    have e : digitsValue (List.replicate (k + 1) '0' ++ s)
        = digitsValue (List.replicate k '0' ++ s) := by
      simp only [digitsValue, List.replicate_succ, List.cons_append, List.foldl_cons]
      rfl
    rw [e, ih]

theorem digitsValue_padStart2 (n : Nat) : digitsValue (padStart2 (decimal n)) = n := by
  rw [padStart2, digitsValue_zeros, digitsValue_decimal]

theorem decimalFuel_no_underscore : ∀ fuel n : Nat, ∀ c ∈ decimalFuel fuel n, c ≠ '_' := by
  intro fuel
  induction fuel with
  | zero => intro n c h; cases h
  | succ fuel ih =>
    intro n c h
    unfold decimalFuel at h
    have key : ∀ d, d < 10 → Char.ofNat (48 + d) ≠ '_' := by
      intro d hd he
      have := congrArg Char.toNat he
      rw [digitChar_toNat d hd] at this
      have h95 : ('_' : Char).toNat = 95 := rfl
      omega
    by_cases hn : n < 10
    · simp only [hn, if_true, List.mem_singleton] at h
      rw [h]; exact key n hn
    · simp only [hn, if_false, List.mem_append, List.mem_singleton] at h
      rcases h with h | h
      · exact ih _ c h
      · rw [h]; exact key _ (Nat.mod_lt _ (by decide))

theorem padStart2_no_underscore (n : Nat) : ∀ c ∈ padStart2 (decimal n), c ≠ '_' := by
  intro c h
  simp only [padStart2, List.mem_append, List.mem_replicate] at h
  rcases h with ⟨-, h⟩ | h
  · rw [h]; decide
  · exact decimalFuel_no_underscore _ _ c h

/-- Two texts cut at the first occurrence of `x` have the same part before it. -/
theorem append_cons_left_unique {x : Char} : ∀ {u u1 v v1 : Str}, x ∉ u → x ∉ u1 →
    u ++ x :: v = u1 ++ x :: v1 → u = u1 := by
  intro u
  induction u with
  | nil =>
    intro u1 v v1 _ h1 h
    cases u1 with
    | nil => rfl
    | cons b u1 =>
      simp only [List.nil_append, List.cons_append, List.cons.injEq] at h
      exact absurd (h.1 ▸ List.mem_cons_self _ _) h1
  | cons a u ih =>
    intro u1 v v1 h0 h1 h
    cases u1 with
    | nil =>
      simp only [List.nil_append, List.cons_append, List.cons.injEq] at h
      exact absurd (h.1 ▸ List.mem_cons_self _ _) h0
    | cons b u1 =>
      simp only [List.cons_append, List.cons.injEq] at h
      rw [h.1, ih (fun hx => h0 (List.mem_cons_of_mem _ hx))
        (fun hx => h1 (List.mem_cons_of_mem _ hx)) h.2]

/-- The name of a post directory determines its sequence number. -/
theorem postFolderName_index {i j : Nat} {t t1 : Str}
    (h : postFolderName i t = postFolderName j t1) : i = j := by
  unfold postFolderName at h
  rw [List.append_assoc, List.append_assoc] at h
  have h1 := List.append_cancel_left h
  have h2 := append_cons_left_unique
    (fun hx => padStart2_no_underscore i _ hx rfl)
    (fun hx => padStart2_no_underscore j _ hx rfl) h1
  have h3 := congrArg digitsValue h2
  rwa [digitsValue_padStart2, digitsValue_padStart2] at h3

/-! ## Successive allocations -/

theorem mem_subdirs (fs : FS) (d : Path) (x : Str) :
    x ∈ fs.subdirs d ↔ d ++ [x] ∈ fs.dirs := by
  simp only [FS.subdirs, List.mem_dedup, List.mem_filterMap]
  constructor
  · rintro ⟨p, hp, h⟩
    split at h
    · rename_i hd
      have := List.dropLast_append_getLast? x h
      rw [hd] at this
      rw [this]; exact hp
    · cases h
  · intro h
    exact ⟨d ++ [x], h, by simp⟩

theorem nodup_subdirs (fs : FS) (d : Path) : (fs.subdirs d).Nodup := List.nodup_dedup _

theorem mkdirSync_ok (fs : FS) (p : Path) (h : ∀ q ∈ p.inits.tail, q ∉ fs.files) :
    ∃ fs1, fs.mkdirSync p = some fs1 := by
  unfold FS.mkdirSync
  have hany : (p.inits.tail.any fun q => fs.files.contains q) = false := by
    rw [List.any_eq_false]
    intro q hq
    simpa using h q hq
  rw [hany]
  exact ⟨_, rfl⟩

theorem dateFolder_sameDay {a b : Clock} (h : sameDay a b) : dateFolder a = dateFolder b := by
  obtain ⟨h1, h2, h3⟩ := h
  simp [dateFolder, h1, h2, h3]

theorem postIndex_allocated {fs : FS} {b : Str} {k : Nat} (h : Allocated fs b k) :
    postIndex fs = k + 1 := by
  have hmem : ∀ x ∈ fs.subdirs [mainOutputDir], x = b := fun x hx =>
    h.only x ((mem_subdirs fs [mainOutputDir] x).1 hx)
  have hnd := nodup_subdirs fs [mainOutputDir]
  unfold postIndex dateFolders
  cases hl : fs.subdirs [mainOutputDir] with
  | nil =>
    rcases h.made with hm | hk
    · have : b ∈ fs.subdirs [mainOutputDir] := (mem_subdirs fs [mainOutputDir] b).2 hm
      rw [hl] at this; cases this
    · simp [hk]
  | cons x l =>
    rw [hl] at hmem hnd
    have hx : x = b := hmem x (List.mem_cons_self _ _)
    cases l with
    | nil =>
      subst hx
      simp [List.insertionSort, List.orderedInsert, h.count]
    | cons y l =>
      have hy : y = b := hmem y (List.mem_cons_of_mem _ (List.mem_cons_self _ _))
      rw [hx, hy] at hnd
      simp at hnd

/-- One allocation from a state with `k` post directories in the bucket returns the post
directory with sequence number `k + 1` and leaves a state with `k + 1` post directories. -/
theorem allocate_step {fs : FS} {b : Str} {k : Nat} (h : Allocated fs b k) (today now : Clock)
    (hb : dateFolder today = b) :
    (allocate fs today now).2
      = some [mainOutputDir, b, postFolderName (k + 1) (getFormattedTime now)] ∧
    Allocated (allocate fs today now).1 b (k + 1) := by
  have hbf : [mainOutputDir, b] ∉ fs.files := h.bucketFile
  -- the date bucket
  have h1 : ∃ fs1, (if fs.existsSync [mainOutputDir, b] then some fs
        else fs.mkdirSync [mainOutputDir, b]) = some fs1 ∧ fs1.files = fs.files ∧
      (∀ q, q ∈ fs1.dirs → q ∈ fs.dirs ∨ q = [mainOutputDir] ∨ q = [mainOutputDir, b]) ∧
      (∀ q, q ∈ fs.dirs → q ∈ fs1.dirs) ∧ [mainOutputDir, b] ∈ fs1.dirs := by
    by_cases hex : fs.existsSync [mainOutputDir, b] = true
    · refine ⟨fs, by simp [hex], rfl, fun q hq => Or.inl hq, fun q hq => hq, ?_⟩
      simp only [FS.existsSync, Bool.or_eq_true, List.contains_eq_any_beq, List.any_eq_true,
        beq_iff_eq] at hex
      rcases hex with ⟨q, hq, rfl⟩ | ⟨q, hq, rfl⟩
      · exact hq
      · exact absurd hq hbf
    · obtain ⟨fs1, hmk⟩ := mkdirSync_ok fs [mainOutputDir, b] (by
        intro q hq
        simp only [List.inits, List.map_cons, List.map_nil, List.tail_cons, List.mem_cons,
          List.mem_singleton, List.not_mem_nil, or_false] at hq
        rcases hq with rfl | rfl
        · exact h.root
        · exact hbf)
      have hc := mkdirSync_some hmk
      refine ⟨fs1, by simp [hex, hmk], hc.1, ?_, fun q hq => (hc.2 q).2 (Or.inl hq), ?_⟩
      · intro q hq
        rcases (hc.2 q).1 hq with h2 | h2
        · exact Or.inl h2
        · simp only [List.inits, List.map_cons, List.map_nil, List.tail_cons, List.mem_cons,
            List.mem_singleton, List.not_mem_nil, or_false] at h2
          exact Or.inr h2
      · exact (hc.2 _).2 (Or.inr (mem_inits_tail_self _ (by simp)))
  obtain ⟨fs1, e1, hf1, hd1, hsub1, hb1⟩ := h1
  -- the post directory
  have hpf : [mainOutputDir, b, postFolderName (k + 1) (getFormattedTime now)] ∉ fs.files :=
    h.postFile _
  have hnex : fs1.existsSync [mainOutputDir, b, postFolderName (k + 1) (getFormattedTime now)]
      = false := by
    rw [Bool.eq_false_iff]
    intro hex
    simp only [FS.existsSync, Bool.or_eq_true, List.contains_eq_any_beq, List.any_eq_true,
      beq_iff_eq] at hex
    rcases hex with ⟨q, hq, rfl⟩ | ⟨q, hq, rfl⟩
    · rcases hd1 _ hq with h2 | h2 | h2
      · exact h.free _ _ (Nat.lt_succ_self k) h2
      · simp at h2
      · simp at h2
    · rw [hf1] at hq; exact hpf hq
  obtain ⟨fs2, hmk2⟩ := mkdirSync_ok fs1
    [mainOutputDir, b, postFolderName (k + 1) (getFormattedTime now)] (by
      intro q hq
      simp only [List.inits, List.map_cons, List.map_nil, List.tail_cons, List.mem_cons,
        List.mem_singleton, List.not_mem_nil, or_false] at hq
      rw [hf1]
      rcases hq with rfl | rfl | rfl
      · exact h.root
      · exact hbf
      · exact hpf)
  have hc2 := mkdirSync_some hmk2
  have hmem : ∀ q, q ∈ fs2.dirs ↔ q ∈ fs.dirs ∨ q = [mainOutputDir] ∨ q = [mainOutputDir, b] ∨
      q = [mainOutputDir, b, postFolderName (k + 1) (getFormattedTime now)] := by
    intro q
    rw [hc2.2 q]
    simp only [List.inits, List.map_cons, List.map_nil, List.tail_cons, List.mem_cons,
      List.mem_singleton, List.not_mem_nil, or_false]
    constructor
    · rintro (h2 | h2)
      · rcases hd1 q h2 with h3 | h3 | h3
        · exact Or.inl h3
        · exact Or.inr (Or.inl h3)
        · exact Or.inr (Or.inr (Or.inl h3))
      · exact Or.inr h2
    · rintro (h2 | h2)
      · exact Or.inl (hsub1 q h2)
      · exact Or.inr h2
  have hres : allocate fs today now
      = (fs2, some [mainOutputDir, b, postFolderName (k + 1) (getFormattedTime now)]) := by
    unfold allocate createPostDirectory
    simp only [postIndex_allocated h, hb, e1, List.cons_append, List.nil_append, hnex, hmk2]
    rfl
  rw [hres]
  refine ⟨rfl, ?_⟩
  constructor
  · show [mainOutputDir] ∉ fs2.files
    rw [hc2.1, hf1]; exact h.root
  · show [mainOutputDir, b] ∉ fs2.files
    rw [hc2.1, hf1]; exact h.bucketFile
  · show ∀ x, [mainOutputDir, b, x] ∉ fs2.files
    rw [hc2.1, hf1]; exact h.postFile
  · intro x hx
    rcases (hmem _).1 hx with h2 | h2 | h2 | h2
    · exact h.only x h2
    · simp at h2
    · simpa using h2
    · simp at h2
  · exact Or.inl ((hmem _).2 (Or.inr (Or.inr (Or.inl rfl))))
  · show (fs2.subdirs [mainOutputDir, b]).length = k + 1
    have hperm : (fs2.subdirs [mainOutputDir, b]).Perm
        (postFolderName (k + 1) (getFormattedTime now) :: fs.subdirs [mainOutputDir, b]) := by
      rw [List.perm_ext_iff_of_nodup (nodup_subdirs _ _)]
      · intro x
        rw [mem_subdirs, List.mem_cons, mem_subdirs, hmem]
        simp only [List.cons_append, List.nil_append, List.cons.injEq, true_and, and_true]
        constructor
        · rintro (h2 | h2 | h2 | h2)
          · exact Or.inr h2
          · simp at h2
          · simp at h2
          · exact Or.inl h2
        · rintro (h2 | h2)
          · exact Or.inr (Or.inr (Or.inr h2))
          · exact Or.inl h2
      · rw [List.nodup_cons]
        refine ⟨?_, nodup_subdirs _ _⟩
        rw [mem_subdirs]
        exact h.free _ _ (Nat.lt_succ_self k)
    rw [hperm.length_eq, List.length_cons, h.count]
  · intro j t hj hx
    rcases (hmem _).1 hx with h2 | h2 | h2 | h2
    · exact h.free j t (by omega) h2
    · simp at h2
    · simp at h2
    · simp only [List.cons.injEq, true_and, and_true] at h2
      have := postFolderName_index h2
      omega

theorem allocateAll_allocated (b : Str) : ∀ (runs : List (Clock × Clock)) (fs : FS) (k : Nat),
    Allocated fs b k → (∀ r ∈ runs, dateFolder r.1 = b) →
    allocateAll fs runs = (runs.enumFrom k).map (fun kr =>
      some [mainOutputDir, b, postFolderName (kr.1 + 1) (getFormattedTime kr.2.2)]) := by
  intro runs
  induction runs with
  | nil => intro fs k _ _; rfl
  | cons r runs ih =>
    intro fs k h hb
    obtain ⟨h1, h2⟩ := allocate_step h r.1 r.2 (hb r (List.mem_cons_self _ _))
    simp only [allocateAll, List.enumFrom_cons, List.map_cons, h1]
    rw [ih _ (k + 1) h2 (fun q hq => hb q (List.mem_cons_of_mem _ hq))]

theorem nodup_posts (b : Str) : ∀ (runs : List (Clock × Clock)) (k : Nat),
    ((runs.enumFrom k).map (fun kr =>
      some [mainOutputDir, b, postFolderName (kr.1 + 1) (getFormattedTime kr.2.2)])).Nodup := by
  intro runs
  induction runs with
  | nil => intro k; exact List.nodup_nil
  | cons r runs ih =>
    intro k
    simp only [List.enumFrom_cons, List.map_cons, List.nodup_cons]
    refine ⟨?_, ih (k + 1)⟩
    intro hm
    obtain ⟨kr, hkr, he⟩ := List.mem_map.1 hm
    have hle := List.le_fst_of_mem_enumFrom hkr
    simp only [Option.some.injEq, List.cons.injEq, true_and, and_true] at he
    have := postFolderName_index he
    omega

/-- C3: from an output root that holds no directory (and where no regular file has the path
of the root, of the date bucket or of an entry of the bucket), successive allocations of the
photo handler that all fall on the calendar date `day`, at any times, return the post
directories of that date's bucket with the sequence numbers 1, 2, ..., N in order, and these
paths are pairwise distinct. -/
theorem allocations_same_day (fs : FS) (day : Clock) (runs : List (Clock × Clock))
    (hdirs : ∀ p ∈ fs.dirs, p.head? = some mainOutputDir → p = [mainOutputDir])
    (hroot : [mainOutputDir] ∉ fs.files)
    (hbucket : [mainOutputDir, dateFolder day] ∉ fs.files)
    (hposts : ∀ x, [mainOutputDir, dateFolder day, x] ∉ fs.files)
    (hday : ∀ r ∈ runs, sameDay r.1 day) :
    allocateAll fs runs = runs.enum.map (fun kr =>
      some [mainOutputDir, dateFolder day,
        postFolderName (kr.1 + 1) (getFormattedTime kr.2.2)]) ∧
    (allocateAll fs runs).Nodup := by
  have hnone : ∀ q : Path, q ∈ fs.dirs → q.head? = some mainOutputDir → 2 ≤ q.length → False := by
    intro q hq hh hl
    rw [hdirs q hq hh] at hl
    simp at hl
  have h0 : Allocated fs (dateFolder day) 0 := by
    constructor
    · exact hroot
    · exact hbucket
    · exact hposts
    · intro x hx; exact (hnone _ hx rfl (by simp)).elim
    · exact Or.inr rfl
    · rw [List.length_eq_zero, List.eq_nil_iff_forall_not_mem]
      intro x hx
      exact hnone _ ((mem_subdirs _ _ _).1 hx) rfl (by simp)
    · intro j t _ hx; exact hnone _ hx rfl (by simp)
  have hall := allocateAll_allocated (dateFolder day) runs fs 0 h0
    (fun r hr => dateFolder_sameDay (hday r hr))
  refine ⟨hall, ?_⟩
  rw [hall]
  exact nodup_posts _ runs 0

/-- Witness of C3: three allocations on 6 November 2026, at 09:05, 09:05 and 23:59, from the
output root after start-up. -/
theorem allocations_same_day_witness :
    allocateAll startWorld.fs
        [(sampleEnv.today, sampleEnv.now), (sampleEnv.today, sampleEnv.now),
         (sampleEnv.today, { sampleEnv.now with hours := 23, minutes := 59 })]
      = [(sampleEnv.today, sampleEnv.now), (sampleEnv.today, sampleEnv.now),
         (sampleEnv.today, { sampleEnv.now with hours := 23, minutes := 59 })].enum.map
        (fun kr => some [mainOutputDir, dateFolder sampleEnv.today,
          postFolderName (kr.1 + 1) (getFormattedTime kr.2.2)]) ∧
    (allocateAll startWorld.fs
        [(sampleEnv.today, sampleEnv.now), (sampleEnv.today, sampleEnv.now),
         (sampleEnv.today, { sampleEnv.now with hours := 23, minutes := 59 })]).Nodup :=
  allocations_same_day startWorld.fs sampleEnv.today _ (by decide) (by decide) (by decide)
    (by intro x h; simp [startWorld, mainLog] at h) (by decide)

/-! ## The render pipeline -/

/-- C12, the code at the failing input: the caption `Title : News`, `Content : Update: done`,
`Hashtags : #x` has no line that begins with `Date` and is accepted by the parser, yet the
date expression matches inside `Update:` and the date of the post is the rest of the
caption, `done\nHashtags : #x`, not the current date `06 NOV 2026`; the photo handler stores
that date in the pending post. -/
theorem date_taken_from_content :
    startsCI wDate updateCaption = false ∧
    occursCI ('\n' :: wDate) updateCaption = false ∧
    parseCaption "06 NOV 2026".toList updateCaption = some
      { title := "News".toList, content := "Update: done".toList, hashtags := "#x".toList,
        date := "done\nHashtags : #x".toList } ∧
    toUpperCase sampleEnv.localeDate = "06 NOV 2026".toList ∧
    (((onPhoto sampleEnv waitingWorld 1 (some updateCaption)).userStates 1).bind
      (fun s => s.lastPost)).map (fun post => post.date)
      = some "done\nHashtags : #x".toList := by
  decide

end NodeBot







